import Mathlib

/-!
Helm release status updater (`integrations/helm/status/status.go`).

A shallow embedding of `Updater.Loop` and `UpdateReleaseStatus`.

The loop talks to three collaborators: the Kubernetes core client (namespace
listing), the HelmRelease client (object listing and patching) and the Helm
client (release content).  They are gathered in `Env`, a record of operations
over an arbitrary world type `W`: every call receives the current world and
returns its answer together with the next world, so an answer may depend on
everything that happened before (in particular on earlier patches).

Every call the loop makes, and every line it logs, is appended to a trace of
`Event`s.  The `select` of the loop is driven by a list of `Signal`s: the
successive outcomes of the `select` statement.
-/

namespace Flux.Status

/-! ## Data model -/

/-- Go `error` values that are not nil, represented by their message. -/
abbrev Error := String

/-- The `status` sub-record of a HelmRelease (`v1beta1.HelmReleaseStatus`). -/
structure HelmReleaseStatus where
  ReleaseName : String
  ReleaseStatus : String
deriving DecidableEq, Repr

/-- The custom resource `v1beta1.HelmRelease`.  `Name` is the promoted
`ObjectMeta.Name`; the remaining metadata and the spec are not inspected by
this package and are kept abstract (`M`, `S`). -/
structure HelmRelease (M S : Type) where
  Name : String
  Meta : M
  Spec : S
  Status : HelmReleaseStatus
deriving DecidableEq, Repr

/-- An item of the namespace listing (`corev1.Namespace`); only `Name` is read. -/
structure Namespace where
  Name : String
deriving DecidableEq, Repr

/-- The answer of `helmClient.ReleaseContent`, a `*GetReleaseContentResponse`
that is not nil.  The loop observes it only through the getter chain
`content.GetRelease().GetInfo().GetStatus().GetCode().String()`; the response
is represented by the value of that chain. -/
structure GetReleaseContentResponse where
  statusCodeString : String
deriving DecidableEq, Repr

/-- The patch types of `k8s.io/apimachinery/pkg/types`. -/
inductive PatchType where
  | JSONPatchType
  | MergePatchType
  | StrategicMergePatchType
deriving DecidableEq, Repr

/-- A value handed to `logger.Log`: a string, or an `error` that may be nil. -/
inductive LogVal where
  | str (s : String)
  | err (e : Option Error)
deriving DecidableEq, Repr

/-- The observable actions of the loop. -/
inductive Event where
  | newTicker (d : Nat)
  | tickerStop
  | listNamespaces
  | listHelmReleases (ns : String)
  | releaseContent (releaseName : String)
  | patch (ns : String) (name : String) (pt : PatchType) (data : String)
  | log (keyvals : List LogVal)
deriving DecidableEq, Repr

/-- The collaborators of the `Updater`, as operations on a world `W`. -/
structure Env (M S W : Type) where
  /-- The call `a.kube.CoreV1().Namespaces().List(metav1.ListOptions{})`. -/
  listNamespaces : W → Except Error (List Namespace) × W
  /-- The call `a.fluxhelm.FluxV1beta1().HelmReleases(ns).List(metav1.ListOptions{})`. -/
  listHelmReleases : String → W → Except Error (List (HelmRelease M S)) × W
  /-- The function `release.GetReleaseName(fhr)`. -/
  GetReleaseName : HelmRelease M S → String
  /-- The call `a.helmClient.ReleaseContent(releaseName)` on the `*helm.Client`: either a
  response and a nil error, or a nil response and an error (a release that does not exist
  is reported as an error too). -/
  ReleaseContent : String → W → Except Error GetReleaseContentResponse × W
  /-- The call `client.Patch(name, pt, data)` on the client of namespace `ns`; only the
  returned error is used. -/
  Patch : String → String → PatchType → String → W → Option Error × W

/-! ## `encoding/json` on the patch document -/

/-- The values `UpdateReleaseStatus` hands to `json.Marshal`: strings and
`map[string]interface{}` (a list of key/value pairs). -/
inductive JVal where
  | str (s : String)
  | obj (members : List (String × JVal))

/-- The sixteen hexadecimal digits used by the encoder (`"0123456789abcdef"`). -/
def hexDigit (n : Nat) : Char :=
  if n < 10 then Char.ofNat (48 + n) else Char.ofNat (87 + n)

/-- One character of a JSON string as `encoding/json` writes it with HTML escaping on:
the quote and the backslash get a backslash, newline, carriage return and tab their
short form, the other control characters and `<`, `>`, `&` the form `\u00XX`, the
line separators U+2028 and U+2029 the form `\u202X`, everything else is copied. -/
def escapeChar (c : Char) : List Char :=
  if c = '"' then ['\\', '"']
  else if c = '\\' then ['\\', '\\']
  else if c = '\n' then ['\\', 'n']
  else if c = '\r' then ['\\', 'r']
  else if c = '\t' then ['\\', 't']
  else if c.toNat < 32 ∨ c = '<' ∨ c = '>' ∨ c = '&' then
    ['\\', 'u', '0', '0', hexDigit (c.toNat / 16), hexDigit (c.toNat % 16)]
  else if c.toNat = 8232 ∨ c.toNat = 8233 then
    ['\\', 'u', '2', '0', '2', hexDigit (c.toNat % 16)]
  else [c]

/-- A JSON string literal. -/
def encodeString (s : String) : List Char :=
  '"' :: (s.data.flatMap escapeChar ++ ['"'])

/-- Insertion of a member into a list of members ordered by key. -/
def insertMember (kv : String × List Char) : List (String × List Char) → List (String × List Char)
  | [] => [kv]
  | x :: xs => if kv.1.data < x.1.data then kv :: x :: xs else x :: insertMember kv xs

/-- The members of an object in the order `encoding/json` writes a map: sorted by key. -/
def sortMembers (ms : List (String × List Char)) : List (String × List Char) :=
  ms.foldr insertMember []

/-- The members `"k":v` separated by commas. -/
def joinMembers : List (String × List Char) → List Char
  | [] => []
  | [kv] => encodeString kv.1 ++ ':' :: kv.2
  | kv :: rest => encodeString kv.1 ++ ':' :: kv.2 ++ ',' :: joinMembers rest

mutual
/-- The JSON text of a value. -/
def encodeValue : JVal → List Char
  | .str s => encodeString s
  | .obj ms => '{' :: (joinMembers (sortMembers (encodeMembers ms)) ++ ['}'])
/-- The members of an object, each with its encoded value. -/
def encodeMembers : List (String × JVal) → List (String × List Char)
  | [] => []
  | (k, v) :: rest => (k, encodeValue v) :: encodeMembers rest
end

/-- The call `json.Marshal(v)` on a value made of maps and strings: it cannot fail. -/
def jsonMarshal (v : JVal) : Except Error String :=
  .ok (String.mk (encodeValue v))

/-! ## `UpdateReleaseStatus` -/

/-- The map literal built by `UpdateReleaseStatus`. -/
def patchDocument (releaseName releaseStatus : String) : JVal :=
  .obj [("status", .obj [("releaseName", .str releaseName), ("releaseStatus", .str releaseStatus)])]

/-- The function `UpdateReleaseStatus(client, fhr, releaseName, releaseStatus)`, where
`client` is the HelmRelease client of namespace `ns`.  Returns the error (nil: `none`),
the next world and the calls made. -/
def UpdateReleaseStatus {M S W : Type} (env : Env M S W) (ns : String) (fhr : HelmRelease M S)
    (releaseName releaseStatus : String) (w : W) : Option Error × W × List Event :=
  match jsonMarshal (patchDocument releaseName releaseStatus) with
  | .ok patchBytes =>
    let r := env.Patch ns fhr.Name .MergePatchType patchBytes w
    (r.1, r.2, [Event.patch ns fhr.Name .MergePatchType patchBytes])
  | .error e => (some e, w, [])

/-! ## `Updater.Loop` -/

/-- The constant `period`, in nanoseconds (`10 * time.Second`). -/
def period : Nat := 10 * 1000000000

/-- The `Updater`: its three clients (`env`) and the configured namespace
(the field `namespace`, a reserved word here). -/
structure Updater (M S W : Type) where
  env : Env M S W
  namespace_ : String

/-- The constructor `New`. -/
def New {M S W : Type} (env : Env M S W) (namespace_ : String) : Updater M S W :=
  ⟨env, namespace_⟩

/-- The state after a stretch of the loop body: the world and the events emitted. -/
structure Run (W : Type) where
  world : W
  trace : List Event
deriving DecidableEq, Repr

/-- The state after (part of) one pass of the loop body; `err = some e` records
`logErr = e; break bail`. -/
structure SweepRun (W : Type) where
  world : W
  trace : List Event
  err : Option Error
deriving DecidableEq, Repr

/-- The body of `for _, fhr := range fhrs.Items` (lines 84-97) for one object. -/
def Loop.item {M S W : Type} (env : Env M S W) (ns : String) (fhr : HelmRelease M S) (w : W) :
    Run W :=
  let releaseName := env.GetReleaseName fhr
  let r := env.ReleaseContent releaseName w
  match r.1.toOption with
  | none => ⟨r.2, [Event.releaseContent releaseName]⟩
  | some content =>
    if content.statusCodeString ≠ fhr.Status.ReleaseStatus then
      let u := UpdateReleaseStatus env ns fhr releaseName content.statusCodeString r.2
      match u.1 with
      | some e =>
        ⟨u.2.1, Event.releaseContent releaseName :: (u.2.2 ++
          [Event.log [.str "namespace", .str ns, .str "resource", .str fhr.Name,
            .str "err", .err (some e)]])⟩
      | none => ⟨u.2.1, Event.releaseContent releaseName :: u.2.2⟩
    else ⟨r.2, [Event.releaseContent releaseName]⟩

/-- The loop `for _, fhr := range fhrs.Items` over the objects listed in `ns`. -/
def Loop.items {M S W : Type} (env : Env M S W) (ns : String) :
    List (HelmRelease M S) → W → Run W
  | [], w => ⟨w, []⟩
  | fhr :: rest, w =>
    let r := Loop.item env ns fhr w
    let r2 := Loop.items env ns rest r.world
    ⟨r2.world, r.trace ++ r2.trace⟩

/-- The loop `for _, ns := range namespaces` (lines 76-99). -/
def Loop.namespaces {M S W : Type} (env : Env M S W) : List String → W → SweepRun W
  | [], w => ⟨w, [], none⟩
  | ns :: rest, w =>
    match env.listHelmReleases ns w with
    | (.error e, w1) => ⟨w1, [Event.listHelmReleases ns], some e⟩
    | (.ok fhrs, w1) =>
      let r := Loop.items env ns fhrs w1
      let r2 := Loop.namespaces env rest r.world
      ⟨r2.world, Event.listHelmReleases ns :: (r.trace ++ r2.trace), r2.err⟩

/-- The computation of `namespaces` (lines 61-73): the slice, or the listing error. -/
def Loop.scope {M S W : Type} (a : Updater M S W) (w : W) :
    Except Error (List String) × W × List Event :=
  if a.namespace_ ≠ "" then (.ok ([] ++ [a.namespace_]), w, [])
  else
    match a.env.listNamespaces w with
    | (.error e, w1) => (.error e, w1, [Event.listNamespaces])
    | (.ok all, w1) =>
      (.ok (all.foldl (fun namespaces ns => namespaces ++ [ns.Name]) []), w1,
        [Event.listNamespaces])

/-- One pass of the loop body after the `select` (lines 61-99). -/
def Loop.sweep {M S W : Type} (a : Updater M S W) (w : W) : SweepRun W :=
  match Loop.scope a w with
  | (.error e, w1, t) => ⟨w1, t, some e⟩
  | (.ok namespaces, w1, t) =>
    let r := Loop.namespaces a.env namespaces w1
    ⟨r.world, t ++ r.trace, r.err⟩

/-- An outcome of the `select` statement: the `stop` case or the `ticker.C` case. -/
inductive Signal where
  | stop
  | tick
deriving DecidableEq, Repr

/-- The state of `Loop` after a finite run: `stopped = true` when the function has
returned, `false` when it waits in `select`; `logErr` is the variable of that name. -/
structure LoopRun (W : Type) where
  world : W
  trace : List Event
  stopped : Bool
  logErr : Option Error
deriving DecidableEq, Repr

/-- The statements after the loop (lines 102-103). -/
def Loop.finish {W : Type} (logErr : Option Error) (w : W) : LoopRun W :=
  ⟨w, [Event.tickerStop, Event.log [.str "loop", .str "stopping", .str "err", .err logErr]],
    true, logErr⟩

/-- The labelled `for` loop (lines 55-100), from the value of `logErr` and the outcomes of
the successive `select`s; when the outcomes run out the loop is waiting in `select`. -/
def Loop.iterate {M S W : Type} (a : Updater M S W) :
    Option Error → List Signal → W → LoopRun W
  | logErr, [], w => ⟨w, [], false, logErr⟩
  | logErr, .stop :: _, w => Loop.finish logErr w
  | logErr, .tick :: rest, w =>
    let r := Loop.sweep a w
    match r.err with
    | some e =>
      let f := Loop.finish (some e) r.world
      ⟨f.world, r.trace ++ f.trace, f.stopped, f.logErr⟩
    | none =>
      let l := Loop.iterate a logErr rest r.world
      ⟨l.world, r.trace ++ l.trace, l.stopped, l.logErr⟩

/-- The method `Updater.Loop(stop, logger)`. -/
def Loop {M S W : Type} (a : Updater M S W) (signals : List Signal) (w : W) : LoopRun W :=
  let l := Loop.iterate a none signals w
  ⟨l.world, Event.newTicker period :: l.trace, l.stopped, l.logErr⟩

/-! ## Positions in a sweep -/

/-- The patch calls of a trace. -/
def Event.isPatch : Event → Bool
  | .patch _ _ _ _ => true
  | _ => false

/-- The place of one listed object in a sweep: the namespaces scanned before, the
namespace `ns` of the object and the namespaces after it; the objects listed in `ns`
before `fhr`, the object itself and those after it. -/
structure Position (M S : Type) where
  nsBefore : List String
  ns : String
  nsAfter : List String
  before : List (HelmRelease M S)
  fhr : HelmRelease M S
  after : List (HelmRelease M S)

/-- The world in which the sweep started in `w` lists the namespace of the position. -/
def Position.listingWorld {M S W : Type} (p : Position M S) (a : Updater M S W) (w : W) : W :=
  (Loop.namespaces a.env p.nsBefore (Loop.scope a w).2.1).world

/-- The world in which the sweep started in `w` reaches the object of the position. -/
def Position.world {M S W : Type} (p : Position M S) (a : Updater M S W) (w : W) : W :=
  (Loop.items a.env p.ns p.before (a.env.listHelmReleases p.ns (p.listingWorld a w)).2).world

/-- The events of the sweep started in `w` until it reaches the object of the position. -/
def Position.events {M S W : Type} (p : Position M S) (a : Updater M S W) (w : W) :
    List Event :=
  (Loop.scope a w).2.2 ++ (Loop.namespaces a.env p.nsBefore (Loop.scope a w).2.1).trace ++
    Event.listHelmReleases p.ns ::
      (Loop.items a.env p.ns p.before (a.env.listHelmReleases p.ns (p.listingWorld a w)).2).trace

/-- The sweep started in `w` reaches the position: the namespaces to scan are
`nsBefore ++ ns :: nsAfter`, every listing of `nsBefore` succeeds, and the listing of `ns`
returns `before ++ fhr :: after`. -/
def Position.listed {M S W : Type} (p : Position M S) (a : Updater M S W) (w : W) : Prop :=
  (Loop.scope a w).1 = .ok (p.nsBefore ++ p.ns :: p.nsAfter) ∧
  (Loop.namespaces a.env p.nsBefore (Loop.scope a w).2.1).err = none ∧
  (a.env.listHelmReleases p.ns (p.listingWorld a w)).1 = .ok (p.before ++ p.fhr :: p.after)

/-- What is left of the sweep once the object of the position has been handled, from
the world `w1` reached then: the objects after it, then the namespaces after `ns`. -/
def Position.rest {M S W : Type} (p : Position M S) (a : Updater M S W) (w1 : W) :
    SweepRun W :=
  let r := Loop.items a.env p.ns p.after w1
  let r2 := Loop.namespaces a.env p.nsAfter r.world
  ⟨r2.world, r.trace ++ r2.trace, r2.err⟩

/-! ## A scripted environment for concrete runs -/

/-- An environment whose answers are fixed tables and whose world counts the calls made
so far.  Objects carry their release name as spec (`GetReleaseName` returns it). -/
def scripted (namespaces : Except Error (List Namespace))
    (objects : String → Except Error (List (HelmRelease Unit String)))
    (releases : String → Except Error GetReleaseContentResponse)
    (patchError : String → String → Option Error) : Env Unit String Nat where
  listNamespaces w := (namespaces, w + 1)
  listHelmReleases ns w := (objects ns, w + 1)
  GetReleaseName fhr := fhr.Spec
  ReleaseContent releaseName w := (releases releaseName, w + 1)
  Patch ns name _ _ w := (patchError ns name, w + 1)

/-- Scenario 1: namespace `default` holds one object mapping to release `foo`, with an
empty stored status; the backend reports `DEPLOYED` for `foo`. -/
def scenario1 : Updater Unit String Nat :=
  New (scripted (.ok [⟨"default"⟩])
    (fun ns => if ns = "default" then .ok [⟨"app", (), "foo", ⟨"", ""⟩⟩] else .ok [])
    (fun r => if r = "foo" then .ok ⟨"DEPLOYED"⟩ else .error "release not found")
    (fun _ _ => none)) ""

/-- The object of scenario 1, at its place in the sweep. -/
def scenario1Position : Position Unit String :=
  ⟨[], "default", [], [], ⟨"app", (), "foo", ⟨"", ""⟩⟩, []⟩

/-- Scenario 2: as scenario 1, but the backend has no release `foo`; a second object
`web` (release `bar`, reported `FAILED`) follows. -/
def scenario2 : Updater Unit String Nat :=
  New (scripted (.ok [⟨"default"⟩])
    (fun ns =>
      if ns = "default" then .ok [⟨"app", (), "foo", ⟨"", ""⟩⟩, ⟨"web", (), "bar", ⟨"", ""⟩⟩]
      else .ok [])
    (fun r => if r = "bar" then .ok ⟨"FAILED"⟩ else .error "release not found")
    (fun _ _ => none)) "default"

/-- The first object of scenario 2, at its place in the sweep. -/
def scenario2Position : Position Unit String :=
  ⟨[], "default", [], [], ⟨"app", (), "foo", ⟨"", ""⟩⟩, [⟨"web", (), "bar", ⟨"", ""⟩⟩]⟩

/-- A backend outage: every `ReleaseContent` call returns an error and no response. -/
def outage : Updater Unit String Nat :=
  New (scripted (.ok [⟨"default"⟩])
    (fun ns =>
      if ns = "default" then .ok [⟨"app", (), "foo", ⟨"", ""⟩⟩, ⟨"web", (), "bar", ⟨"", ""⟩⟩]
      else .ok [])
    (fun _ => .error "transport is closing")
    (fun _ _ => none)) "default"

/-- A cluster whose namespace listing fails; no namespace is configured. -/
def unreachable : Updater Unit String Nat :=
  New (scripted (.error "connection refused")
    (fun _ => .ok [⟨"app", (), "foo", ⟨"", ""⟩⟩])
    (fun _ => .ok ⟨"DEPLOYED"⟩)
    (fun _ _ => none)) ""

/-- Scenario 4: namespaces `ns1` and `ns2`; `ns1` lists one object (release `foo`,
reported `DEPLOYED`, stored status empty), the listing of `ns2` fails. -/
def scenario4 : Updater Unit String Nat :=
  New (scripted (.ok [⟨"ns1"⟩, ⟨"ns2"⟩])
    (fun ns => if ns = "ns1" then .ok [⟨"app", (), "foo", ⟨"", ""⟩⟩] else .error "list refused")
    (fun _ => .ok ⟨"DEPLOYED"⟩)
    (fun _ _ => none)) ""

/-- A fault on one object: `default` lists `app` (release `foo`) and `web` (release
`bar`), both reported `DEPLOYED` with an empty stored status; every patch of `app` fails. -/
def faulty : Updater Unit String Nat :=
  New (scripted (.ok [⟨"default"⟩])
    (fun ns =>
      if ns = "default" then .ok [⟨"app", (), "foo", ⟨"", ""⟩⟩, ⟨"web", (), "bar", ⟨"", ""⟩⟩]
      else .ok [])
    (fun _ => .ok ⟨"DEPLOYED"⟩)
    (fun _ name => if name = "app" then some "conflict" else none)) "default"

/-- Scenario 3: as scenario 1, but the stored status of the object is already
`DEPLOYED`. -/
def scenario3 : Updater Unit String Nat :=
  New (scripted (.ok [⟨"default"⟩])
    (fun ns => if ns = "default" then .ok [⟨"app", (), "foo", ⟨"foo", "DEPLOYED"⟩⟩] else .ok [])
    (fun r => if r = "foo" then .ok ⟨"DEPLOYED"⟩ else .error "release not found")
    (fun _ _ => none)) ""

/-- The object of scenario 3, at its place in the sweep. -/
def scenario3Position : Position Unit String :=
  ⟨[], "default", [], [], ⟨"app", (), "foo", ⟨"foo", "DEPLOYED"⟩⟩, []⟩

/-! ## A model of the cluster, for runs in which patches are applied -/

/-- Removal of a literal from the front of a text (used to read a patch back). -/
def dropLit : List Char → List Char → Option (List Char)
  | [], cs => some cs
  | _ :: _, [] => none
  | l :: ls, c :: cs => if l = c then dropLit ls cs else none

/-- The value of a hexadecimal digit. -/
def hexVal (c : Char) : Option Nat :=
  if 48 ≤ c.toNat ∧ c.toNat ≤ 57 then some (c.toNat - 48)
  else if 97 ≤ c.toNat ∧ c.toNat ≤ 102 then some (c.toNat - 87)
  else if 65 ≤ c.toNat ∧ c.toNat ≤ 70 then some (c.toNat - 55)
  else none

/-- The character written after a backslash in a JSON string (`\u` apart). -/
def unescape (c : Char) : Option Char :=
  if c = '"' then some '"'
  else if c = '\\' then some '\\'
  else if c = '/' then some '/'
  else if c = 'n' then some '\n'
  else if c = 'r' then some '\r'
  else if c = 't' then some '\t'
  else if c = 'b' then some (Char.ofNat 8)
  else if c = 'f' then some (Char.ofNat 12)
  else none

/-- The characters of a JSON string literal, read after its opening quote, and the text
that follows its closing quote. -/
def decodeChars : List Char → Option (List Char × List Char)
  | [] => none
  | c :: rest =>
    if c = '"' then some ([], rest)
    else if c = '\\' then
      match rest with
      | [] => none
      | x :: rest1 =>
        if x = 'u' then
          match rest1 with
          | h1 :: h2 :: h3 :: h4 :: rest2 =>
            match hexVal h1, hexVal h2, hexVal h3, hexVal h4, decodeChars rest2 with
            | some a, some b, some c, some d, some (s, r) =>
              some (Char.ofNat (((a * 16 + b) * 16 + c) * 16 + d) :: s, r)
            | _, _, _, _, _ => none
          | _ => none
        else
          match unescape x, decodeChars rest1 with
          | some y, some (s, r) => some (y :: s, r)
          | _, _ => none
    else
      match decodeChars rest with
      | some (s, r) => some (c :: s, r)
      | none => none

/-- Modelled from the spec: how the cluster client reads a status merge patch.  The JSON
text must be the object with the single member `status` holding the members
`releaseName` and `releaseStatus`, in this order; the result is the two strings. -/
def decodeStatusPatch (data : String) : Option (String × String) :=
  match dropLit "\x7b\"status\":\x7b\"releaseName\":\"".data data.data with
  | none => none
  | some r1 =>
    match decodeChars r1 with
    | none => none
    | some (releaseName, r2) =>
      match dropLit ",\"releaseStatus\":\"".data r2 with
      | none => none
      | some r3 =>
        match decodeChars r3 with
        | none => none
        | some (releaseStatus, r4) =>
          if r4 = "\x7d\x7d".data then some (String.mk releaseName, String.mk releaseStatus)
          else none

/-- Modelled from the spec: the cluster API collaborator and the release backend, which
are not part of this package.  The cluster holds its namespaces, the HelmRelease objects
with the namespace of each, and the status code string of every release the backend
knows. -/
structure Cluster (M S : Type) where
  namespaces : List Namespace
  objects : List (String × HelmRelease M S)
  releases : List (String × String)

/-- Modelled from the spec: the merge-patch semantics assumed of the cluster client, on a
stored object: the object of namespace `ns` named `name` gets the two leaves
`status.releaseName` and `status.releaseStatus` replaced, all its other fields and all
other objects are left untouched. -/
def Cluster.mergeStatus {M S : Type} (ns name releaseName releaseStatus : String)
    (o : String × HelmRelease M S) : String × HelmRelease M S :=
  if o.1 = ns ∧ o.2.Name = name then (o.1, { o.2 with Status := ⟨releaseName, releaseStatus⟩ })
  else o

/-- Modelled from the spec: the collaborators over a `Cluster`.  Listings succeed and
read the cluster; `ReleaseContent` answers from the backend table and fails for an
unknown release; `Patch` applies a status merge patch to the stored object and fails
when there is no such object or the patch is of another kind.  `naming` is
`release.GetReleaseName`. -/
def Cluster.env {M S : Type} (naming : HelmRelease M S → String) : Env M S (Cluster M S) where
  listNamespaces k := (.ok k.namespaces, k)
  listHelmReleases ns k := (.ok ((k.objects.filter (fun o => o.1 = ns)).map Prod.snd), k)
  GetReleaseName := naming
  ReleaseContent releaseName k :=
    (match k.releases.lookup releaseName with
      | some code => .ok ⟨code⟩
      | none => .error "release not found", k)
  Patch ns name pt data k :=
    match pt, decodeStatusPatch data with
    | .MergePatchType, some (releaseName, releaseStatus) =>
      if k.objects.any (fun o => o.1 = ns ∧ o.2.Name = name) then
        (none, ⟨k.namespaces,
          k.objects.map (Cluster.mergeStatus ns name releaseName releaseStatus), k.releases⟩)
      else (some "not found", k)
    | _, _ => (some "unsupported patch", k)

/-- The identity of a stored object: its namespace and its name. -/
def Cluster.key {M S : Type} (o : String × HelmRelease M S) : String × String :=
  (o.1, o.2.Name)

/-- The stored status of the object agrees with the backend: if the backend knows its
release, the stored `releaseStatus` is the code the backend reports. -/
def Cluster.settled {M S : Type} (naming : HelmRelease M S → String) (k : Cluster M S)
    (o : String × HelmRelease M S) : Prop :=
  ∀ code, k.releases.lookup (naming o.2) = some code → o.2.Status.ReleaseStatus = code

/-- The stored object once the loop body has handled it: unchanged when the backend does
not know its release or reports the stored code, else with its status replaced (used to
describe the cluster after a sweep). -/
def Cluster.settle {M S : Type} (naming : HelmRelease M S → String) (k : Cluster M S)
    (o : String × HelmRelease M S) : String × HelmRelease M S :=
  match k.releases.lookup (naming o.2) with
  | some code =>
    if code ≠ o.2.Status.ReleaseStatus then (o.1, { o.2 with Status := ⟨naming o.2, code⟩ })
    else o
  | none => o

/-- The effect on a stored object `o` of the loop body run on the listed object `fhr` of
namespace `ns` (used to describe the cluster after a sweep). -/
def Cluster.step {M S : Type} (naming : HelmRelease M S → String) (k : Cluster M S) (ns : String)
    (fhr : HelmRelease M S) (o : String × HelmRelease M S) : String × HelmRelease M S :=
  match k.releases.lookup (naming fhr) with
  | some code =>
    if code ≠ fhr.Status.ReleaseStatus then Cluster.mergeStatus ns fhr.Name (naming fhr) code o
    else o
  | none => o

/-- The namespaces a sweep over the cluster scans, for a configured namespace. -/
def Cluster.scanned {M S : Type} (namespace_ : String) (k : Cluster M S) : List String :=
  if namespace_ ≠ "" then [namespace_] else k.namespaces.map Namespace.Name

/-- A cluster with two objects in `default`: `app` (release `foo`, known to the backend
as `DEPLOYED`) and `web` (release `bar`, unknown to the backend), both with an empty
stored status. -/
def smallCluster : Cluster Unit String :=
  ⟨[⟨"default"⟩],
    [("default", ⟨"app", (), "foo", ⟨"", ""⟩⟩), ("default", ⟨"web", (), "bar", ⟨"", ""⟩⟩)],
    [("foo", "DEPLOYED")]⟩

/-! ## Structure of the loops -/

theorem Loop.items_append {M S W : Type} (env : Env M S W) (ns : String)
    (xs ys : List (HelmRelease M S)) (w : W) :
    Loop.items env ns (xs ++ ys) w =
      ⟨(Loop.items env ns ys (Loop.items env ns xs w).world).world,
        (Loop.items env ns xs w).trace ++
          (Loop.items env ns ys (Loop.items env ns xs w).world).trace⟩ := by
  induction xs generalizing w with
  | nil => simp [Loop.items]
  | cons x xs ih => simp [Loop.items, ih, List.append_assoc]

theorem Loop.namespaces_cons_ok {M S W : Type} (env : Env M S W) (ns : String)
    (rest : List String) (w : W) (fhrs : List (HelmRelease M S))
    (h : (env.listHelmReleases ns w).1 = .ok fhrs) :
    Loop.namespaces env (ns :: rest) w =
      ⟨(Loop.namespaces env rest
          (Loop.items env ns fhrs (env.listHelmReleases ns w).2).world).world,
        Event.listHelmReleases ns ::
          ((Loop.items env ns fhrs (env.listHelmReleases ns w).2).trace ++
            (Loop.namespaces env rest
              (Loop.items env ns fhrs (env.listHelmReleases ns w).2).world).trace),
        (Loop.namespaces env rest
          (Loop.items env ns fhrs (env.listHelmReleases ns w).2).world).err⟩ := by
  rcases hl : env.listHelmReleases ns w with ⟨res, w1⟩
  rw [hl] at h
  simp only at h
  subst h
  simp [Loop.namespaces, hl]

theorem Loop.namespaces_cons_error {M S W : Type} (env : Env M S W) (ns : String)
    (rest : List String) (w : W) (e : Error)
    (h : (env.listHelmReleases ns w).1 = .error e) :
    Loop.namespaces env (ns :: rest) w =
      ⟨(env.listHelmReleases ns w).2, [Event.listHelmReleases ns], some e⟩ := by
  rcases hl : env.listHelmReleases ns w with ⟨res, w1⟩
  rw [hl] at h
  simp only at h
  subst h
  simp [Loop.namespaces, hl]

theorem Loop.namespaces_append {M S W : Type} (env : Env M S W) (xs ys : List String) (w : W)
    (h : (Loop.namespaces env xs w).err = none) :
    Loop.namespaces env (xs ++ ys) w =
      ⟨(Loop.namespaces env ys (Loop.namespaces env xs w).world).world,
        (Loop.namespaces env xs w).trace ++
          (Loop.namespaces env ys (Loop.namespaces env xs w).world).trace,
        (Loop.namespaces env ys (Loop.namespaces env xs w).world).err⟩ := by
  induction xs generalizing w with
  | nil => simp [Loop.namespaces]
  | cons x xs ih =>
    rcases hl : env.listHelmReleases x w with ⟨res, w1⟩
    cases res with
    | error e => simp [Loop.namespaces, hl] at h
    | ok fhrs =>
      have h1 : (env.listHelmReleases x w).1 = .ok fhrs := by rw [hl]
      rw [Loop.namespaces_cons_ok env x xs w fhrs h1] at h
      simp only at h
      rw [List.cons_append, Loop.namespaces_cons_ok env x (xs ++ ys) w fhrs h1,
        Loop.namespaces_cons_ok env x xs w fhrs h1, ih _ h]
      simp [List.append_assoc]

theorem Loop.sweep_of_scope_ok {M S W : Type} (a : Updater M S W) (w : W)
    (namespaces : List String) (h : (Loop.scope a w).1 = .ok namespaces) :
    Loop.sweep a w =
      ⟨(Loop.namespaces a.env namespaces (Loop.scope a w).2.1).world,
        (Loop.scope a w).2.2 ++ (Loop.namespaces a.env namespaces (Loop.scope a w).2.1).trace,
        (Loop.namespaces a.env namespaces (Loop.scope a w).2.1).err⟩ := by
  rcases hs : Loop.scope a w with ⟨res, w1, t⟩
  rw [hs] at h
  simp only at h
  subst h
  simp [Loop.sweep, hs]

/-- The sweep seen from a listed object: the events up to the object, the handling of
the object, then the rest of the sweep. -/
theorem Position.sweep_eq {M S W : Type} (p : Position M S) (a : Updater M S W) (w : W)
    (h : p.listed a w) :
    Loop.sweep a w =
      ⟨(p.rest a (Loop.item a.env p.ns p.fhr (p.world a w)).world).world,
        p.events a w ++ (Loop.item a.env p.ns p.fhr (p.world a w)).trace ++
          (p.rest a (Loop.item a.env p.ns p.fhr (p.world a w)).world).trace,
        (p.rest a (Loop.item a.env p.ns p.fhr (p.world a w)).world).err⟩ := by
  obtain ⟨hscope, hbefore, hlist⟩ := h
  rw [Loop.sweep_of_scope_ok a w _ hscope, Loop.namespaces_append _ _ _ _ hbefore]
  have hlist2 : (a.env.listHelmReleases p.ns
      (Loop.namespaces a.env p.nsBefore (Loop.scope a w).2.1).world).1 =
      .ok (p.before ++ p.fhr :: p.after) := hlist
  rw [Loop.namespaces_cons_ok _ _ _ _ _ hlist2, Loop.items_append]
  simp [Loop.items, Position.rest, Position.events, Position.world, Position.listingWorld,
    List.append_assoc]

theorem Loop.item_absent {M S W : Type} (env : Env M S W) (ns : String) (fhr : HelmRelease M S)
    (w : W) (h : (env.ReleaseContent (env.GetReleaseName fhr) w).1.toOption = none) :
    Loop.item env ns fhr w =
      ⟨(env.ReleaseContent (env.GetReleaseName fhr) w).2,
        [Event.releaseContent (env.GetReleaseName fhr)]⟩ := by
  simp [Loop.item, h]

theorem Loop.item_fresh {M S W : Type} (env : Env M S W) (ns : String) (fhr : HelmRelease M S)
    (w : W) (content : GetReleaseContentResponse)
    (h : (env.ReleaseContent (env.GetReleaseName fhr) w).1.toOption = some content)
    (heq : content.statusCodeString = fhr.Status.ReleaseStatus) :
    Loop.item env ns fhr w =
      ⟨(env.ReleaseContent (env.GetReleaseName fhr) w).2,
        [Event.releaseContent (env.GetReleaseName fhr)]⟩ := by
  simp [Loop.item, h, heq]

theorem jsonMarshal_patchDocument (releaseName releaseStatus : String) :
    jsonMarshal (patchDocument releaseName releaseStatus) =
      .ok (String.mk ("\x7b\"status\":\x7b\"releaseName\":".data ++ encodeString releaseName ++
        ",\"releaseStatus\":".data ++ encodeString releaseStatus ++ "\x7d\x7d".data)) := by
  have h : ("releaseName" : String).data < "releaseStatus".data := by decide
  simp [jsonMarshal, patchDocument, encodeValue, encodeMembers, sortMembers, insertMember,
    joinMembers, h]
  simp [encodeString, escapeChar, List.flatMap]

theorem UpdateReleaseStatus_eq {M S W : Type} (env : Env M S W) (ns : String)
    (fhr : HelmRelease M S) (releaseName releaseStatus : String) (w : W) (data : String)
    (h : jsonMarshal (patchDocument releaseName releaseStatus) = .ok data) :
    UpdateReleaseStatus env ns fhr releaseName releaseStatus w =
      ((env.Patch ns fhr.Name .MergePatchType data w).1,
        (env.Patch ns fhr.Name .MergePatchType data w).2,
        [Event.patch ns fhr.Name .MergePatchType data]) := by
  simp [UpdateReleaseStatus, h]

theorem Loop.item_stale {M S W : Type} (env : Env M S W) (ns : String) (fhr : HelmRelease M S)
    (w : W) (content : GetReleaseContentResponse) (data : String)
    (h : (env.ReleaseContent (env.GetReleaseName fhr) w).1.toOption = some content)
    (hne : content.statusCodeString ≠ fhr.Status.ReleaseStatus)
    (hd : jsonMarshal (patchDocument (env.GetReleaseName fhr) content.statusCodeString) =
      .ok data) :
    Loop.item env ns fhr w =
      ⟨(env.Patch ns fhr.Name .MergePatchType data
          (env.ReleaseContent (env.GetReleaseName fhr) w).2).2,
        Event.releaseContent (env.GetReleaseName fhr) ::
          Event.patch ns fhr.Name .MergePatchType data ::
            ((env.Patch ns fhr.Name .MergePatchType data
              (env.ReleaseContent (env.GetReleaseName fhr) w).2).1.toList.map
              fun e => Event.log [.str "namespace", .str ns, .str "resource", .str fhr.Name,
                .str "err", .err (some e)])⟩ := by
  simp only [Loop.item, h, UpdateReleaseStatus_eq env ns fhr _ _ _ data hd]
  rw [if_pos hne]
  cases hp : (env.Patch ns fhr.Name .MergePatchType data
      (env.ReleaseContent (env.GetReleaseName fhr) w).2).1 <;> simp

/-! ## Reading a status patch back -/

theorem hexVal_hexDigit (n : Nat) (h : n < 16) : hexVal (hexDigit n) = some n := by
  interval_cases n <;> decide

theorem decodeChars_quote (tail : List Char) : decodeChars ('"' :: tail) = some ([], tail) := by
  conv_lhs => unfold decodeChars
  simp

theorem decodeChars_short (x : Char) (tail : List Char) (h : x ≠ 'u') :
    decodeChars ('\\' :: x :: tail) =
      match unescape x, decodeChars tail with
      | some y, some (s, r) => some (y :: s, r)
      | _, _ => none := by
  conv_lhs => unfold decodeChars
  simp [h]

theorem decodeChars_plain (c : Char) (tail : List Char) (h1 : c ≠ '"') (h2 : c ≠ '\\') :
    decodeChars (c :: tail) =
      match decodeChars tail with
      | some (s, r) => some (c :: s, r)
      | none => none := by
  conv_lhs => unfold decodeChars
  simp [h1, h2]

theorem decodeChars_hex (h1 h2 h3 h4 : Char) (tail : List Char) :
    decodeChars ('\\' :: 'u' :: h1 :: h2 :: h3 :: h4 :: tail) =
      match hexVal h1, hexVal h2, hexVal h3, hexVal h4, decodeChars tail with
      | some a, some b, some c, some d, some (s, r) =>
        some (Char.ofNat (((a * 16 + b) * 16 + c) * 16 + d) :: s, r)
      | _, _, _, _, _ => none := by
  conv_lhs => unfold decodeChars
  simp

theorem decodeChars_escapeChar (c : Char) (tail : List Char) :
    decodeChars (escapeChar c ++ tail) =
      match decodeChars tail with
      | some (s, r) => some (c :: s, r)
      | none => none := by
  unfold escapeChar
  split_ifs with h1 h2 h3 h4 h5 h6 h7
  · subst h1
    rw [List.cons_append, List.cons_append, List.nil_append, decodeChars_short _ _ (by decide)]
    cases decodeChars tail <;> simp [unescape]
  · subst h2
    rw [List.cons_append, List.cons_append, List.nil_append, decodeChars_short _ _ (by decide)]
    cases decodeChars tail <;> simp [unescape]
  · subst h3
    rw [List.cons_append, List.cons_append, List.nil_append, decodeChars_short _ _ (by decide)]
    cases decodeChars tail <;> simp [unescape]
  · subst h4
    rw [List.cons_append, List.cons_append, List.nil_append, decodeChars_short _ _ (by decide)]
    cases decodeChars tail <;> simp [unescape]
  · subst h5
    rw [List.cons_append, List.cons_append, List.nil_append, decodeChars_short _ _ (by decide)]
    cases decodeChars tail <;> simp [unescape]
  · have hlt : c.toNat < 128 := by
      rcases h6 with h | h | h | h
      · omega
      · subst h; decide
      · subst h; decide
      · subst h; decide
    have ha : hexVal (hexDigit (c.toNat / 16)) = some (c.toNat / 16) :=
      hexVal_hexDigit _ (by omega)
    have hb : hexVal (hexDigit (c.toNat % 16)) = some (c.toNat % 16) :=
      hexVal_hexDigit _ (by omega)
    have h0 : hexVal '0' = some 0 := by decide
    have hc : Char.ofNat (((0 * 16 + 0) * 16 + c.toNat / 16) * 16 + c.toNat % 16) = c := by
      have : ((0 * 16 + 0) * 16 + c.toNat / 16) * 16 + c.toNat % 16 = c.toNat := by omega
      rw [this, Char.ofNat_toNat]
    simp only [List.cons_append, List.nil_append]
    rw [decodeChars_hex, ha, hb, h0]
    cases decodeChars tail with
    | none => rfl
    | some sr => simp only [hc]
  · have hb : hexVal (hexDigit (c.toNat % 16)) = some (c.toNat % 16) :=
      hexVal_hexDigit _ (by omega)
    have h0 : hexVal '0' = some 0 := by decide
    have h2 : hexVal '2' = some 2 := by decide
    have hc : Char.ofNat (((2 * 16 + 0) * 16 + 2) * 16 + c.toNat % 16) = c := by
      have : ((2 * 16 + 0) * 16 + 2) * 16 + c.toNat % 16 = c.toNat := by omega
      rw [this, Char.ofNat_toNat]
    simp only [List.cons_append, List.nil_append]
    rw [decodeChars_hex, hb, h0, h2]
    cases decodeChars tail with
    | none => rfl
    | some sr => simp only [hc]
  · rw [List.cons_append, List.nil_append, decodeChars_plain c tail h1 h2]

theorem decodeChars_flatMap (s tail : List Char) :
    decodeChars (s.flatMap escapeChar ++ '"' :: tail) = some (s, tail) := by
  induction s with
  | nil => simp [decodeChars_quote]
  | cons c s ih =>
    rw [List.flatMap_cons, List.append_assoc, decodeChars_escapeChar, ih]

theorem decodeChars_encodeString (s : String) (tail : List Char) :
    decodeChars (s.data.flatMap escapeChar ++ ['"'] ++ tail) = some (s.data, tail) := by
  rw [List.append_assoc]
  exact decodeChars_flatMap s.data tail

theorem decodeStatusPatch_jsonMarshal (releaseName releaseStatus data : String)
    (h : jsonMarshal (patchDocument releaseName releaseStatus) = .ok data) :
    decodeStatusPatch data = some (releaseName, releaseStatus) := by
  rw [jsonMarshal_patchDocument] at h
  injection h with h
  subst h
  simp only [decodeStatusPatch, encodeString]
  have e1 : dropLit "\x7b\"status\":\x7b\"releaseName\":\"".data
      ("\x7b\"status\":\x7b\"releaseName\":".data ++
        '"' :: (releaseName.data.flatMap escapeChar ++ ['"']) ++
        ",\"releaseStatus\":".data ++
        '"' :: (releaseStatus.data.flatMap escapeChar ++ ['"']) ++ "\x7d\x7d".data) =
      some (releaseName.data.flatMap escapeChar ++ '"' ::
        (",\"releaseStatus\":\"".data ++
          (releaseStatus.data.flatMap escapeChar ++ '"' :: "\x7d\x7d".data))) := by
    simp [dropLit]
  rw [e1]
  simp only [decodeChars_flatMap]
  have e2 : dropLit ",\"releaseStatus\":\"".data
      (",\"releaseStatus\":\"".data ++
        (releaseStatus.data.flatMap escapeChar ++ '"' :: "\x7d\x7d".data)) =
      some (releaseStatus.data.flatMap escapeChar ++ '"' :: "\x7d\x7d".data) := by
    simp [dropLit]
  rw [e2]
  simp only [decodeChars_flatMap]
  simp

/-! ## The loop over the signals -/

theorem Loop.item_trace {M S W : Type} (env : Env M S W) (ns : String) (fhr : HelmRelease M S)
    (w : W) :
    ∃ tail, (Loop.item env ns fhr w).trace = Event.releaseContent (env.GetReleaseName fhr) :: tail := by
  unfold Loop.item
  simp only
  split
  · exact ⟨_, rfl⟩
  · split
    · split <;> exact ⟨_, rfl⟩
    · exact ⟨_, rfl⟩

theorem Loop.items_cons_trace {M S W : Type} (env : Env M S W) (ns : String)
    (fhr : HelmRelease M S) (rest : List (HelmRelease M S)) (w : W) :
    ∃ tail, (Loop.items env ns (fhr :: rest) w).trace =
      Event.releaseContent (env.GetReleaseName fhr) :: tail := by
  obtain ⟨t, ht⟩ := Loop.item_trace env ns fhr w
  exact ⟨t ++ (Loop.items env ns rest (Loop.item env ns fhr w).world).trace, by
    simp [Loop.items, ht]⟩

theorem Position.rest_next {M S W : Type} (p : Position M S) (a : Updater M S W) (w1 : W)
    (next : HelmRelease M S) (more : List (HelmRelease M S)) (h : p.after = next :: more) :
    ∃ tail, (p.rest a w1).trace = Event.releaseContent (a.env.GetReleaseName next) :: tail := by
  obtain ⟨t, ht⟩ := Loop.items_cons_trace a.env p.ns next more w1
  exact ⟨t ++ (Loop.namespaces a.env p.nsAfter (Loop.items a.env p.ns p.after w1).world).trace,
    by simp [Position.rest, h, ht]⟩

theorem Loop.scope_foldl (all : List Namespace) (acc : List String) :
    all.foldl (fun namespaces ns => namespaces ++ [ns.Name]) acc =
      acc ++ all.map Namespace.Name := by
  induction all generalizing acc with
  | nil => simp
  | cons x xs ih => simp [ih]

theorem Loop.iterate_logErr {M S W : Type} (a : Updater M S W) (logErr : Option Error)
    (signals : List Signal) (w : W) (h : (Loop.iterate a logErr signals w).stopped = false) :
    (Loop.iterate a logErr signals w).logErr = logErr := by
  induction signals generalizing w with
  | nil => rfl
  | cons s rest ih =>
    cases s with
    | stop => simp [Loop.iterate, Loop.finish] at h
    | tick =>
      cases he : (Loop.sweep a w).err with
      | some e => simp [Loop.iterate, he, Loop.finish] at h
      | none =>
        simp only [Loop.iterate, he] at h ⊢
        exact ih _ h

theorem Loop.iterate_append {M S W : Type} (a : Updater M S W) (logErr : Option Error)
    (s1 s2 : List Signal) (w : W) (h : (Loop.iterate a logErr s1 w).stopped = false) :
    Loop.iterate a logErr (s1 ++ s2) w =
      ⟨(Loop.iterate a logErr s2 (Loop.iterate a logErr s1 w).world).world,
        (Loop.iterate a logErr s1 w).trace ++
          (Loop.iterate a logErr s2 (Loop.iterate a logErr s1 w).world).trace,
        (Loop.iterate a logErr s2 (Loop.iterate a logErr s1 w).world).stopped,
        (Loop.iterate a logErr s2 (Loop.iterate a logErr s1 w).world).logErr⟩ := by
  induction s1 generalizing w with
  | nil => simp [Loop.iterate]
  | cons s rest ih =>
    cases s with
    | stop => simp [Loop.iterate, Loop.finish] at h
    | tick =>
      cases he : (Loop.sweep a w).err with
      | some e => simp [Loop.iterate, he, Loop.finish] at h
      | none =>
        simp only [Loop.iterate, he] at h
        have ih1 := ih _ h
        rw [List.cons_append]
        simp only [Loop.iterate, he]
        rw [ih1]
        simp only [List.append_assoc]

theorem Loop.append {M S W : Type} (a : Updater M S W) (s1 s2 : List Signal) (w : W)
    (h : (Loop a s1 w).stopped = false) :
    Loop a (s1 ++ s2) w =
      ⟨(Loop.iterate a none s2 (Loop a s1 w).world).world,
        (Loop a s1 w).trace ++ (Loop.iterate a none s2 (Loop a s1 w).world).trace,
        (Loop.iterate a none s2 (Loop a s1 w).world).stopped,
        (Loop.iterate a none s2 (Loop a s1 w).world).logErr⟩ := by
  have h1 : (Loop.iterate a none s1 w).stopped = false := h
  simp only [Loop, Loop.iterate_append a none s1 s2 w h1, List.cons_append]

theorem Loop.iterate_tick_fatal {M S W : Type} (a : Updater M S W) (logErr : Option Error)
    (rest : List Signal) (w : W) (e : Error) (h : (Loop.sweep a w).err = some e) :
    Loop.iterate a logErr (.tick :: rest) w =
      ⟨(Loop.sweep a w).world,
        (Loop.sweep a w).trace ++
          [Event.tickerStop,
            Event.log [.str "loop", .str "stopping", .str "err", .err (some e)]],
        true, some e⟩ := by
  simp [Loop.iterate, Loop.finish, h]

theorem Loop.namespaces_fails_at {M S W : Type} (env : Env M S W) (nsPre : List String)
    (nk : String) (nsPost : List String) (w : W) (e : Error)
    (hpre : (Loop.namespaces env nsPre w).err = none)
    (hfail : (env.listHelmReleases nk (Loop.namespaces env nsPre w).world).1 = .error e) :
    Loop.namespaces env (nsPre ++ nk :: nsPost) w =
      ⟨(env.listHelmReleases nk (Loop.namespaces env nsPre w).world).2,
        (Loop.namespaces env nsPre w).trace ++ [Event.listHelmReleases nk], some e⟩ := by
  rw [Loop.namespaces_append env nsPre _ w hpre, Loop.namespaces_cons_error env nk nsPost _ e hfail]

theorem Loop.namespaces_err_append {M S W : Type} (env : Env M S W) (xs ys : List String) (w : W)
    (h : (Loop.namespaces env (xs ++ ys) w).err = none) :
    (Loop.namespaces env xs w).err = none := by
  induction xs generalizing w with
  | nil => rfl
  | cons x xs ih =>
    rcases hl : env.listHelmReleases x w with ⟨res, w1⟩
    cases res with
    | error e => simp [Loop.namespaces, hl] at h
    | ok fhrs =>
      have h1 : (env.listHelmReleases x w).1 = .ok fhrs := by rw [hl]
      rw [List.cons_append, Loop.namespaces_cons_ok env x (xs ++ ys) w fhrs h1] at h
      rw [Loop.namespaces_cons_ok env x xs w fhrs h1]
      exact ih _ h

theorem Loop.iterate_tick_ok {M S W : Type} (a : Updater M S W) (logErr : Option Error)
    (rest : List Signal) (w : W) (h : (Loop.sweep a w).err = none) :
    Loop.iterate a logErr (.tick :: rest) w =
      ⟨(Loop.iterate a logErr rest (Loop.sweep a w).world).world,
        (Loop.sweep a w).trace ++ (Loop.iterate a logErr rest (Loop.sweep a w).world).trace,
        (Loop.iterate a logErr rest (Loop.sweep a w).world).stopped,
        (Loop.iterate a logErr rest (Loop.sweep a w).world).logErr⟩ := by
  simp [Loop.iterate, h]

/-! ## Runs over the cluster model -/

theorem Cluster.eta {M S : Type} (k : Cluster M S) : ({ k with objects := k.objects } : Cluster M S) = k := by
  cases k; rfl

theorem Cluster.key_mergeStatus {M S : Type} (ns name rn rs : String) (o : String × HelmRelease M S) :
    Cluster.key (Cluster.mergeStatus ns name rn rs o) = Cluster.key o := by
  unfold Cluster.mergeStatus Cluster.key
  split_ifs <;> rfl

theorem Cluster.key_settle {M S : Type} (naming : HelmRelease M S → String) (k : Cluster M S)
    (o : String × HelmRelease M S) : Cluster.key (Cluster.settle naming k o) = Cluster.key o := by
  unfold Cluster.settle Cluster.key
  split
  · split_ifs <;> rfl
  · rfl

theorem Cluster.mergeStatus_other {M S : Type} (ns name rn rs : String) (o : String × HelmRelease M S)
    (h : ¬ (o.1 = ns ∧ o.2.Name = name)) : Cluster.mergeStatus ns name rn rs o = o := by
  simp [Cluster.mergeStatus, h]

theorem Cluster.item_world {M S : Type} (naming : HelmRelease M S → String) (k : Cluster M S) (ns : String)
    (fhr : HelmRelease M S) :
    (Loop.item (Cluster.env naming) ns fhr k).world =
      { k with objects := k.objects.map (Cluster.step naming k ns fhr) } := by
  cases hl : k.releases.lookup (naming fhr) with
  | none =>
    have h1 : ((Cluster.env naming).ReleaseContent ((Cluster.env naming).GetReleaseName fhr)
        k).1.toOption = none := by
      simp [Cluster.env, hl, Except.toOption]
    rw [Loop.item_absent _ _ _ _ h1]
    have : Cluster.step naming k ns fhr = id := by
      funext o; simp [Cluster.step, hl]
    simp [this, Cluster.env, Cluster.eta]
  | some code =>
    have h1 : ((Cluster.env naming).ReleaseContent ((Cluster.env naming).GetReleaseName fhr)
        k).1.toOption = some ⟨code⟩ := by
      simp [Cluster.env, hl, Except.toOption]
    by_cases hc : code = fhr.Status.ReleaseStatus
    · rw [Loop.item_fresh _ _ _ _ _ h1 hc]
      have : Cluster.step naming k ns fhr = id := by
        funext o; simp [Cluster.step, hl, hc]
      simp [this, Cluster.env, Cluster.eta]
    · have hd := jsonMarshal_patchDocument ((Cluster.env naming).GetReleaseName fhr) code
      rw [Loop.item_stale _ _ _ _ _ _ h1 hc hd]
      have hdec := decodeStatusPatch_jsonMarshal _ _ _ hd
      have hstep : Cluster.step naming k ns fhr =
          Cluster.mergeStatus ns fhr.Name (naming fhr) code := by
        funext o; simp [Cluster.step, hl, hc]
      simp only [hstep]
      simp only [Cluster.env] at hdec ⊢
      simp only [hdec]
      by_cases hany : k.objects.any (fun o => o.1 = ns ∧ o.2.Name = fhr.Name) = true
      · rw [if_pos hany]
      · rw [if_neg hany]
        have hmap : k.objects.map (Cluster.mergeStatus ns fhr.Name (naming fhr) code) =
            k.objects := by
          conv_rhs => rw [← List.map_id k.objects]
          apply List.map_congr_left
          intro o ho
          apply Cluster.mergeStatus_other
          intro hm
          apply hany
          rw [List.any_eq_true]
          exact ⟨o, ho, by simpa using hm⟩
        rw [hmap]

theorem Cluster.step_self {M S : Type} (naming : HelmRelease M S → String) (k : Cluster M S) (ns : String)
    (fhr : HelmRelease M S) :
    Cluster.step naming k ns fhr (ns, fhr) = Cluster.settle naming k (ns, fhr) := by
  unfold Cluster.step Cluster.settle
  cases k.releases.lookup (naming fhr) with
  | none => rfl
  | some code =>
    simp only
    split_ifs with h
    · simp [Cluster.mergeStatus]
    · rfl

theorem Cluster.step_other {M S : Type} (naming : HelmRelease M S → String) (k : Cluster M S) (ns : String)
    (fhr : HelmRelease M S) (o : String × HelmRelease M S)
    (h : ¬ (o.1 = ns ∧ o.2.Name = fhr.Name)) : Cluster.step naming k ns fhr o = o := by
  unfold Cluster.step
  cases k.releases.lookup (naming fhr) with
  | none => rfl
  | some code =>
    simp only
    split_ifs
    · exact Cluster.mergeStatus_other _ _ _ _ _ h
    · rfl

theorem Cluster.key_step {M S : Type} (naming : HelmRelease M S → String) (k : Cluster M S) (ns : String)
    (fhr : HelmRelease M S) (o : String × HelmRelease M S) :
    Cluster.key (Cluster.step naming k ns fhr o) = Cluster.key o := by
  unfold Cluster.step
  cases k.releases.lookup (naming fhr) with
  | none => rfl
  | some code =>
    simp only
    split_ifs
    · exact Cluster.key_mergeStatus _ _ _ _ _
    · rfl

theorem Cluster.eq_of_key {M S : Type} (objects : List (String × HelmRelease M S))
    (h : (objects.map Cluster.key).Nodup) (o1 o2 : String × HelmRelease M S)
    (h1 : o1 ∈ objects) (h2 : o2 ∈ objects) (hk : Cluster.key o1 = Cluster.key o2) : o1 = o2 :=
  List.inj_on_of_nodup_map h h1 h2 hk

theorem Cluster.items_world {M S : Type} (naming : HelmRelease M S → String) (ns : String)
    (items : List (HelmRelease M S)) (k : Cluster M S)
    (hkeys : (k.objects.map Cluster.key).Nodup)
    (hnames : (items.map HelmRelease.Name).Nodup)
    (hmem : ∀ fhr ∈ items, (ns, fhr) ∈ k.objects) :
    (Loop.items (Cluster.env naming) ns items k).world =
      { k with objects := k.objects.map (fun o =>
          if o.1 = ns ∧ o.2.Name ∈ items.map HelmRelease.Name then Cluster.settle naming k o
          else o) } := by
  induction items generalizing k with
  | nil =>
    simp [Loop.items, Cluster.eta]
  | cons fhr rest ih =>
    simp only [Loop.items]
    rw [Cluster.item_world]
    have hnames1 : (rest.map HelmRelease.Name).Nodup := (List.nodup_cons.mp hnames).2
    have hnot : fhr.Name ∉ rest.map HelmRelease.Name := (List.nodup_cons.mp hnames).1
    have hkeys1 : ((k.objects.map (Cluster.step naming k ns fhr)).map Cluster.key).Nodup := by
      simp only [List.map_map]
      have : (Cluster.key ∘ Cluster.step naming k ns fhr) = (Cluster.key : _ → String × String) := by
        funext o; exact Cluster.key_step naming k ns fhr o
      rw [this]; exact hkeys
    have hmem1 : ∀ f ∈ rest, (ns, f) ∈ k.objects.map (Cluster.step naming k ns fhr) := by
      intro f hf
      simp only [List.mem_map]
      refine ⟨(ns, f), hmem f (List.mem_cons_of_mem _ hf), ?_⟩
      apply Cluster.step_other
      rintro ⟨-, hn⟩
      apply hnot
      simp only at hn
      rw [← hn]
      exact List.mem_map_of_mem _ hf
    rw [ih _ hkeys1 hnames1 hmem1]
    simp only [List.map_map]
    congr 1
    apply List.map_congr_left
    intro o ho
    simp only [Function.comp]
    by_cases hA : o.1 = ns ∧ o.2.Name = fhr.Name
    · have ho2 : o = (ns, fhr) := by
        apply Cluster.eq_of_key k.objects hkeys o (ns, fhr) ho (hmem fhr (List.mem_cons_self _ _))
        simp [Cluster.key, hA.1, hA.2]
      subst ho2
      rw [Cluster.step_self]
      have hkey := Cluster.key_settle naming k (ns, fhr)
      simp only [Cluster.key, Prod.mk.injEq] at hkey
      rw [if_neg, if_pos]
      · simp
      · rintro ⟨-, hn⟩
        rw [hkey.2] at hn
        exact hnot hn
    · rw [Cluster.step_other naming k ns fhr o hA]
      have hiff : (o.1 = ns ∧ o.2.Name ∈ rest.map HelmRelease.Name) ↔
          (o.1 = ns ∧ o.2.Name ∈ (fhr :: rest).map HelmRelease.Name) := by
        constructor
        · rintro ⟨h1, h2⟩
          exact ⟨h1, by simp only [List.map_cons]; exact List.mem_cons_of_mem _ h2⟩
        · rintro ⟨h1, h2⟩
          refine ⟨h1, ?_⟩
          simp only [List.map_cons, List.mem_cons] at h2
          rcases h2 with h2 | h2
          · exact absurd ⟨h1, h2⟩ hA
          · exact h2
      by_cases hB : o.1 = ns ∧ o.2.Name ∈ rest.map HelmRelease.Name
      · rw [if_pos hB, if_pos (hiff.mp hB)]
        rfl
      · rw [if_neg hB, if_neg (fun h => hB (hiff.mpr h))]

theorem Cluster.snapshot_world {M S : Type} (naming : HelmRelease M S → String) (ns : String)
    (k : Cluster M S) (hkeys : (k.objects.map Cluster.key).Nodup) :
    (Loop.items (Cluster.env naming) ns ((k.objects.filter (fun o => o.1 = ns)).map Prod.snd)
        k).world =
      { k with objects := k.objects.map (fun o =>
          if o.1 = ns then Cluster.settle naming k o else o) } := by
  have hmem : ∀ fhr ∈ (k.objects.filter (fun o => o.1 = ns)).map Prod.snd,
      (ns, fhr) ∈ k.objects := by
    intro fhr hf
    simp only [List.mem_map, List.mem_filter, decide_eq_true_eq] at hf
    obtain ⟨o, ⟨ho, hns⟩, rfl⟩ := hf
    rw [← hns]
    exact ho
  have hnames : (((k.objects.filter (fun o => o.1 = ns)).map Prod.snd).map
      HelmRelease.Name).Nodup := by
    have h1 : ((k.objects.filter (fun o => o.1 = ns)).map Cluster.key).Nodup :=
      (List.filter_sublist _).map Cluster.key |>.nodup hkeys
    have h2 : (k.objects.filter (fun o => decide (o.1 = ns))).map Cluster.key =
        ((((k.objects.filter (fun o => decide (o.1 = ns))).map Prod.snd).map
          HelmRelease.Name).map (fun n => (ns, n))) := by
      simp only [List.map_map]
      apply List.map_congr_left
      intro o ho
      simp only [List.mem_filter, decide_eq_true_eq] at ho
      simp [Cluster.key, ho.2]
    rw [h2] at h1
    exact List.Nodup.of_map _ h1
  rw [Cluster.items_world naming ns _ k hkeys hnames hmem]
  congr 1
  apply List.map_congr_left
  intro o ho
  by_cases h : o.1 = ns
  · have hin : o.2.Name ∈ ((k.objects.filter (fun o => decide (o.1 = ns))).map Prod.snd).map
        HelmRelease.Name := by
      simp only [List.map_map, List.mem_map, List.mem_filter, decide_eq_true_eq]
      exact ⟨o, ⟨ho, h⟩, rfl⟩
    rw [if_pos ⟨h, hin⟩, if_pos h]
  · rw [if_neg (fun hc => h hc.1), if_neg h]

theorem Cluster.settled_settle {M S : Type} (naming : HelmRelease M S → String)
    (hnaming : ∀ (o : HelmRelease M S) (st : HelmReleaseStatus),
      naming { o with Status := st } = naming o)
    (k : Cluster M S) (o : String × HelmRelease M S) :
    Cluster.settled naming k (Cluster.settle naming k o) := by
  intro code hcode
  cases hl : k.releases.lookup (naming o.2) with
  | none =>
    have hs : Cluster.settle naming k o = o := by simp [Cluster.settle, hl]
    rw [hs] at hcode ⊢
    rw [hl] at hcode
    cases hcode
  | some c =>
    by_cases hc : c = o.2.Status.ReleaseStatus
    · have hs : Cluster.settle naming k o = o := by simp [Cluster.settle, hl, hc]
      rw [hs] at hcode ⊢
      rw [hl] at hcode
      injection hcode with hcode
      rw [← hcode, hc]
    · have hs : Cluster.settle naming k o =
          (o.1, { o.2 with Status := ⟨naming o.2, c⟩ }) := by
        simp [Cluster.settle, hl, hc]
      rw [hs] at hcode ⊢
      simp only at hcode ⊢
      rw [hnaming, hl] at hcode
      injection hcode

theorem Cluster.namespaces_settles {M S : Type} (naming : HelmRelease M S → String)
    (hnaming : ∀ (o : HelmRelease M S) (st : HelmReleaseStatus),
      naming { o with Status := st } = naming o)
    (nss : List String) (k : Cluster M S) (hkeys : (k.objects.map Cluster.key).Nodup)
    (done : List String)
    (hdone : ∀ o ∈ k.objects, o.1 ∈ done → Cluster.settled naming k o) :
    (Loop.namespaces (Cluster.env naming) nss k).world.namespaces = k.namespaces ∧
    (Loop.namespaces (Cluster.env naming) nss k).world.releases = k.releases ∧
    ((Loop.namespaces (Cluster.env naming) nss k).world.objects.map Cluster.key).Nodup ∧
    ∀ o ∈ (Loop.namespaces (Cluster.env naming) nss k).world.objects, o.1 ∈ done ++ nss →
      Cluster.settled naming k o := by
  induction nss generalizing k done with
  | nil =>
    refine ⟨rfl, rfl, hkeys, ?_⟩
    intro o ho hin
    rw [List.append_nil] at hin
    exact hdone o ho hin
  | cons ns rest ih =>
    have hlist : ((Cluster.env naming).listHelmReleases ns k).1 =
        .ok ((k.objects.filter (fun o => o.1 = ns)).map Prod.snd) := rfl
    rw [Loop.namespaces_cons_ok _ ns rest k _ hlist]
    simp only
    have hw : ((Cluster.env naming).listHelmReleases ns k).2 = k := rfl
    rw [hw, Cluster.snapshot_world naming ns k hkeys]
    have hkeys1 : ((k.objects.map (fun o =>
        if o.1 = ns then Cluster.settle naming k o else o)).map Cluster.key).Nodup := by
      simp only [List.map_map]
      have : (Cluster.key ∘ fun o : String × HelmRelease M S =>
          if o.1 = ns then Cluster.settle naming k o else o) = Cluster.key := by
        funext o
        simp only [Function.comp]
        split_ifs
        · exact Cluster.key_settle naming k o
        · rfl
      rw [this]; exact hkeys
    have hdone1 : ∀ o ∈ k.objects.map (fun o =>
        if o.1 = ns then Cluster.settle naming k o else o), o.1 ∈ done ++ [ns] →
        Cluster.settled naming k o := by
      intro o' ho' hin
      simp only [List.mem_map] at ho'
      obtain ⟨o, ho, rfl⟩ := ho'
      by_cases h : o.1 = ns
      · rw [if_pos h]
        exact Cluster.settled_settle naming hnaming k o
      · rw [if_neg h] at hin ⊢
        simp only [List.mem_append, List.mem_singleton] at hin
        rcases hin with hin | hin
        · exact hdone o ho hin
        · exact absurd hin h
    have := ih (Cluster.mk k.namespaces (k.objects.map (fun o =>
        if o.1 = ns then Cluster.settle naming k o else o)) k.releases) hkeys1 (done ++ [ns])
        hdone1
    obtain ⟨h1, h2, h3, h4⟩ := this
    refine ⟨h1, h2, h3, ?_⟩
    intro o ho hin
    apply h4 o ho
    simpa [List.append_assoc] using hin

theorem Cluster.items_settled {M S : Type} (naming : HelmRelease M S → String) (ns : String)
    (items : List (HelmRelease M S)) (k : Cluster M S)
    (h : ∀ fhr ∈ items, Cluster.settled naming k (ns, fhr)) :
    (Loop.items (Cluster.env naming) ns items k).world = k ∧
    (Loop.items (Cluster.env naming) ns items k).trace.filter Event.isPatch = [] := by
  induction items with
  | nil => exact ⟨rfl, rfl⟩
  | cons fhr rest ih =>
    have hitem : Loop.item (Cluster.env naming) ns fhr k =
        ⟨k, [Event.releaseContent (naming fhr)]⟩ := by
      cases hl : k.releases.lookup (naming fhr) with
      | none =>
        have h1 : ((Cluster.env naming).ReleaseContent
            ((Cluster.env naming).GetReleaseName fhr) k).1.toOption = none := by
          simp [Cluster.env, hl, Except.toOption]
        rw [Loop.item_absent _ _ _ _ h1]
        rfl
      | some code =>
        have h1 : ((Cluster.env naming).ReleaseContent
            ((Cluster.env naming).GetReleaseName fhr) k).1.toOption = some ⟨code⟩ := by
          simp [Cluster.env, hl, Except.toOption]
        have hc : code = fhr.Status.ReleaseStatus :=
          (h fhr (List.mem_cons_self _ _) code hl).symm
        rw [Loop.item_fresh _ _ _ _ _ h1 hc]
        rfl
    have ih1 := ih (fun f hf => h f (List.mem_cons_of_mem _ hf))
    simp only [Loop.items, hitem]
    refine ⟨ih1.1, ?_⟩
    rw [List.filter_append, ih1.2]
    rfl

theorem Cluster.namespaces_settled {M S : Type} (naming : HelmRelease M S → String) (nss : List String)
    (k : Cluster M S)
    (h : ∀ o ∈ k.objects, o.1 ∈ nss → Cluster.settled naming k o) :
    (Loop.namespaces (Cluster.env naming) nss k).world = k ∧
    (Loop.namespaces (Cluster.env naming) nss k).trace.filter Event.isPatch = [] := by
  induction nss with
  | nil => exact ⟨rfl, rfl⟩
  | cons ns rest ih =>
    have hlist : ((Cluster.env naming).listHelmReleases ns k).1 =
        .ok ((k.objects.filter (fun o => o.1 = ns)).map Prod.snd) := rfl
    rw [Loop.namespaces_cons_ok _ ns rest k _ hlist]
    have hw : ((Cluster.env naming).listHelmReleases ns k).2 = k := rfl
    simp only [hw]
    have hitems := Cluster.items_settled naming ns
      ((k.objects.filter (fun o => o.1 = ns)).map Prod.snd) k (by
        intro fhr hf
        simp only [List.mem_map, List.mem_filter, decide_eq_true_eq] at hf
        obtain ⟨o, ⟨ho, hns⟩, rfl⟩ := hf
        have := h o ho (by rw [hns]; exact List.mem_cons_self _ _)
        rw [← hns]
        exact this)
    rw [hitems.1]
    have ih1 := ih (fun o ho hin => h o ho (List.mem_cons_of_mem _ hin))
    refine ⟨ih1.1, ?_⟩
    rw [List.filter_cons, List.filter_append, hitems.2, ih1.2]
    rfl

theorem Cluster.namespaces_err {M S : Type} (naming : HelmRelease M S → String) (nss : List String)
    (k : Cluster M S) : (Loop.namespaces (Cluster.env naming) nss k).err = none := by
  induction nss generalizing k with
  | nil => rfl
  | cons ns rest ih =>
    have hlist : ((Cluster.env naming).listHelmReleases ns k).1 =
        .ok ((k.objects.filter (fun o => o.1 = ns)).map Prod.snd) := rfl
    rw [Loop.namespaces_cons_ok _ ns rest k _ hlist]
    exact ih _

theorem Cluster.sweep_scanned {M S : Type} (naming : HelmRelease M S → String) (namespace_ : String)
    (k : Cluster M S) :
    ∃ t0 : List Event, t0.filter Event.isPatch = [] ∧
      Loop.sweep (New (Cluster.env naming) namespace_) k =
        ⟨(Loop.namespaces (Cluster.env naming) (Cluster.scanned namespace_ k) k).world,
          t0 ++ (Loop.namespaces (Cluster.env naming) (Cluster.scanned namespace_ k) k).trace,
          none⟩ := by
  by_cases h : namespace_ = ""
  · refine ⟨[Event.listNamespaces], rfl, ?_⟩
    have hs : Loop.scope (New (Cluster.env naming) namespace_) k =
        (.ok (k.namespaces.map Namespace.Name), k, [Event.listNamespaces]) := by
      simp [Loop.scope, New, h, Cluster.env, Loop.scope_foldl]
    rw [Loop.sweep_of_scope_ok _ k _ (by rw [hs]), hs]
    simp [Cluster.scanned, h, New, Cluster.namespaces_err]
  · refine ⟨[], rfl, ?_⟩
    have hs : Loop.scope (New (Cluster.env naming) namespace_) k =
        (.ok [namespace_], k, []) := by
      simp [Loop.scope, New, h]
    rw [Loop.sweep_of_scope_ok _ k _ (by rw [hs]), hs]
    simp [Cluster.scanned, h, New, Cluster.namespaces_err]

theorem Cluster.second_sweep {M S : Type} (naming : HelmRelease M S → String)
    (hnaming : ∀ (o : HelmRelease M S) (st : HelmReleaseStatus),
      naming { o with Status := st } = naming o)
    (namespace_ : String) (k : Cluster M S) (hkeys : (k.objects.map Cluster.key).Nodup) :
    (Loop.sweep (New (Cluster.env naming) namespace_)
      (Loop.sweep (New (Cluster.env naming) namespace_) k).world).world =
        (Loop.sweep (New (Cluster.env naming) namespace_) k).world ∧
    (Loop.sweep (New (Cluster.env naming) namespace_)
      (Loop.sweep (New (Cluster.env naming) namespace_) k).world).trace.filter Event.isPatch =
        [] ∧
    (Loop.sweep (New (Cluster.env naming) namespace_) k).err = none ∧
    (Loop.sweep (New (Cluster.env naming) namespace_)
      (Loop.sweep (New (Cluster.env naming) namespace_) k).world).err = none := by
  obtain ⟨t0, ht0, hs1⟩ := Cluster.sweep_scanned naming namespace_ k
  obtain ⟨h1, h2, h3, h4⟩ := Cluster.namespaces_settles naming hnaming
    (Cluster.scanned namespace_ k) k hkeys [] (fun o _ hin => absurd hin (List.not_mem_nil _))
  obtain ⟨t1, ht1, hs2⟩ := Cluster.sweep_scanned naming namespace_
    (Loop.namespaces (Cluster.env naming) (Cluster.scanned namespace_ k) k).world
  have hscan : Cluster.scanned namespace_
      (Loop.namespaces (Cluster.env naming) (Cluster.scanned namespace_ k) k).world =
      Cluster.scanned namespace_ k := by
    have hcongr : ∀ k1 k2 : Cluster M S, k1.namespaces = k2.namespaces →
        Cluster.scanned namespace_ k1 = Cluster.scanned namespace_ k2 := by
      intro k1 k2 h
      simp only [Cluster.scanned, h]
    exact hcongr _ _ h1
  rw [hscan] at hs2
  have hsettled := Cluster.namespaces_settled naming (Cluster.scanned namespace_ k)
    (Loop.namespaces (Cluster.env naming) (Cluster.scanned namespace_ k) k).world (by
      intro o ho hin
      have := h4 o ho (by simpa using hin)
      intro code hcode
      rw [h2] at hcode
      exact this code hcode)
  rw [hs1]
  simp only
  rw [hs2]
  simp only
  refine ⟨hsettled.1, ?_, trivial, trivial⟩
  rw [List.filter_append, ht1, hsettled.2]
  rfl

/-! ## The claims -/

/-- C1: when the probe of a listed object returns content whose status code string
differs from the stored `status.releaseStatus`, the handling of that object is the probe
of the derived release name followed by one patch call (and a log line if the patch
fails): the sweep issues exactly one patch for the object, addressed to the object's name
in the namespace it was listed in, whose data is the JSON of `releaseName` = the probed
release name and `releaseStatus` = the probed code. -/
theorem sweep_patches_stale_object {M S W : Type} (a : Updater M S W) (w : W)
    (p : Position M S) (hp : p.listed a w) (content : GetReleaseContentResponse)
    (hprobe : (a.env.ReleaseContent (a.env.GetReleaseName p.fhr) (p.world a w)).1.toOption =
      some content)
    (hstale : content.statusCodeString ≠ p.fhr.Status.ReleaseStatus) :
    ∃ data : String,
      jsonMarshal (patchDocument (a.env.GetReleaseName p.fhr) content.statusCodeString) =
        .ok data ∧
      (Loop.sweep a w).trace =
        p.events a w ++ (Loop.item a.env p.ns p.fhr (p.world a w)).trace ++
          (p.rest a (Loop.item a.env p.ns p.fhr (p.world a w)).world).trace ∧
      (Loop.item a.env p.ns p.fhr (p.world a w)).trace =
        Event.releaseContent (a.env.GetReleaseName p.fhr) ::
          Event.patch p.ns p.fhr.Name .MergePatchType data ::
            ((a.env.Patch p.ns p.fhr.Name .MergePatchType data
              (a.env.ReleaseContent (a.env.GetReleaseName p.fhr) (p.world a w)).2).1.toList.map
              fun e => Event.log [.str "namespace", .str p.ns, .str "resource",
                .str p.fhr.Name, .str "err", .err (some e)]) ∧
      (Loop.item a.env p.ns p.fhr (p.world a w)).trace.filter Event.isPatch =
        [Event.patch p.ns p.fhr.Name .MergePatchType data] := by
  obtain ⟨data, hd⟩ : ∃ data, jsonMarshal
      (patchDocument (a.env.GetReleaseName p.fhr) content.statusCodeString) = .ok data :=
    ⟨_, jsonMarshal_patchDocument _ _⟩
  refine ⟨data, hd, ?_, ?_, ?_⟩
  · rw [p.sweep_eq a w hp]
  · rw [Loop.item_stale a.env p.ns p.fhr _ content data hprobe hstale hd]
  · rw [Loop.item_stale a.env p.ns p.fhr _ content data hprobe hstale hd]
    cases (a.env.Patch p.ns p.fhr.Name .MergePatchType data
      (a.env.ReleaseContent (a.env.GetReleaseName p.fhr) (p.world a w)).2).1 <;>
      simp [Event.isPatch]

/-- Scenario 1 run through C1: one object in `default` mapping to release `foo`, backend
status `DEPLOYED`, stored status empty. -/
theorem sweep_patches_stale_object_witness :
    ∃ data : String,
      jsonMarshal (patchDocument "foo" "DEPLOYED") = .ok data ∧
      (Loop.sweep scenario1 0).trace =
        scenario1Position.events scenario1 0 ++
          (Loop.item scenario1.env "default" scenario1Position.fhr 2).trace ++
          (scenario1Position.rest scenario1
            (Loop.item scenario1.env "default" scenario1Position.fhr 2).world).trace ∧
      (Loop.item scenario1.env "default" scenario1Position.fhr 2).trace =
        Event.releaseContent "foo" ::
          Event.patch "default" "app" .MergePatchType data ::
            ((scenario1.env.Patch "default" "app" .MergePatchType data 3).1.toList.map
              fun e => Event.log [.str "namespace", .str "default", .str "resource",
                .str "app", .str "err", .err (some e)]) ∧
      (Loop.item scenario1.env "default" scenario1Position.fhr 2).trace.filter Event.isPatch =
        [Event.patch "default" "app" .MergePatchType data] :=
  sweep_patches_stale_object scenario1 0 scenario1Position ⟨rfl, rfl, rfl⟩ ⟨"DEPLOYED"⟩ rfl
    (by decide)

/-- C2: a listed object whose probe returns content with the status code string already
stored is handled by the probe alone, with no patch call.  Hence, over a cluster that
applies status merge patches, where object identities are unique and the release name of
an object does not depend on its status, the sweep that follows a sweep with the same
backend state issues no patch and leaves the cluster as it is: two ticks in a row issue
the patches of the first sweep only. -/
theorem correlation_idempotent {M S : Type} :
    (∀ {W : Type} (a : Updater M S W) (w : W) (p : Position M S), p.listed a w →
      ∀ content : GetReleaseContentResponse,
        (a.env.ReleaseContent (a.env.GetReleaseName p.fhr) (p.world a w)).1.toOption =
          some content →
        content.statusCodeString = p.fhr.Status.ReleaseStatus →
        Loop.item a.env p.ns p.fhr (p.world a w) =
          ⟨(a.env.ReleaseContent (a.env.GetReleaseName p.fhr) (p.world a w)).2,
            [Event.releaseContent (a.env.GetReleaseName p.fhr)]⟩ ∧
        (Loop.sweep a w).trace =
          p.events a w ++ Event.releaseContent (a.env.GetReleaseName p.fhr) ::
            (p.rest a
              (a.env.ReleaseContent (a.env.GetReleaseName p.fhr) (p.world a w)).2).trace) ∧
    (∀ (naming : HelmRelease M S → String) (namespace_ : String) (k : Cluster M S),
      (∀ (o : HelmRelease M S) (st : HelmReleaseStatus),
        naming { o with Status := st } = naming o) →
      (k.objects.map Cluster.key).Nodup →
      (Loop.sweep (New (Cluster.env naming) namespace_)
        (Loop.sweep (New (Cluster.env naming) namespace_) k).world).trace.filter
          Event.isPatch = [] ∧
      (Loop.sweep (New (Cluster.env naming) namespace_)
        (Loop.sweep (New (Cluster.env naming) namespace_) k).world).world =
          (Loop.sweep (New (Cluster.env naming) namespace_) k).world ∧
      (Loop (New (Cluster.env naming) namespace_) [.tick, .tick] k).trace.filter
          Event.isPatch =
        (Loop.sweep (New (Cluster.env naming) namespace_) k).trace.filter Event.isPatch) := by
  constructor
  · intro W a w p hp content hprobe heq
    refine ⟨Loop.item_fresh _ _ _ _ content hprobe heq, ?_⟩
    rw [p.sweep_eq a w hp, Loop.item_fresh _ _ _ _ content hprobe heq]
    simp
  · intro naming namespace_ k hnaming hkeys
    obtain ⟨h1, h2, h3, h4⟩ := Cluster.second_sweep naming hnaming namespace_ k hkeys
    refine ⟨h2, h1, ?_⟩
    simp only [Loop, Loop.iterate, h3, h4, List.filter_cons, List.filter_append, h2]
    simp [Event.isPatch]

/-- Scenario 3 and a small cluster run through C2: over the cluster, the first sweep
patches `app` and the second sweep issues no patch. -/
theorem correlation_idempotent_witness :
    (Loop.item scenario3.env "default" scenario3Position.fhr 2 =
        ⟨3, [Event.releaseContent "foo"]⟩ ∧
      (Loop.sweep scenario3 0).trace =
        [Event.listNamespaces, Event.listHelmReleases "default", Event.releaseContent "foo"]) ∧
    ((Loop.sweep (New (Cluster.env HelmRelease.Spec) "")
        (Loop.sweep (New (Cluster.env HelmRelease.Spec) "") smallCluster).world).trace.filter
          Event.isPatch = [] ∧
      (Loop.sweep (New (Cluster.env HelmRelease.Spec) "")
        (Loop.sweep (New (Cluster.env HelmRelease.Spec) "") smallCluster).world).world =
          (Loop.sweep (New (Cluster.env HelmRelease.Spec) "") smallCluster).world ∧
      (Loop (New (Cluster.env HelmRelease.Spec) "") [.tick, .tick] smallCluster).trace.filter
          Event.isPatch =
        (Loop.sweep (New (Cluster.env HelmRelease.Spec) "") smallCluster).trace.filter
          Event.isPatch) :=
  ⟨correlation_idempotent.1 scenario3 0 scenario3Position ⟨rfl, rfl, rfl⟩ ⟨"DEPLOYED"⟩ rfl rfl,
    correlation_idempotent.2 HelmRelease.Spec "" smallCluster (fun _ _ => rfl) (by decide)⟩

/-- C3: when the probe of a listed object returns no content, the handling of that
object is the probe alone: no patch call and no log line, the world is the one the probe
left, the fatal error of the sweep is that of the rest of the sweep, and the sweep goes on
with the probe of the next object of the namespace. -/
theorem sweep_skips_absent_release {M S W : Type} (a : Updater M S W) (w : W)
    (p : Position M S) (hp : p.listed a w)
    (habsent : (a.env.ReleaseContent (a.env.GetReleaseName p.fhr) (p.world a w)).1.toOption =
      none) :
    Loop.item a.env p.ns p.fhr (p.world a w) =
      ⟨(a.env.ReleaseContent (a.env.GetReleaseName p.fhr) (p.world a w)).2,
        [Event.releaseContent (a.env.GetReleaseName p.fhr)]⟩ ∧
    Loop.sweep a w =
      ⟨(p.rest a (a.env.ReleaseContent (a.env.GetReleaseName p.fhr) (p.world a w)).2).world,
        p.events a w ++ Event.releaseContent (a.env.GetReleaseName p.fhr) ::
          (p.rest a (a.env.ReleaseContent (a.env.GetReleaseName p.fhr) (p.world a w)).2).trace,
        (p.rest a (a.env.ReleaseContent (a.env.GetReleaseName p.fhr) (p.world a w)).2).err⟩ ∧
    ∀ next more, p.after = next :: more →
      ∃ tail,
        (p.rest a (a.env.ReleaseContent (a.env.GetReleaseName p.fhr) (p.world a w)).2).trace =
          Event.releaseContent (a.env.GetReleaseName next) :: tail := by
  refine ⟨Loop.item_absent _ _ _ _ habsent, ?_, fun next more h => p.rest_next a _ next more h⟩
  rw [p.sweep_eq a w hp, Loop.item_absent _ _ _ _ habsent]
  simp

/-- Scenario 2 run through C3: the backend has no release `foo`. -/
theorem sweep_skips_absent_release_witness :
    Loop.item scenario2.env "default" scenario2Position.fhr 1 =
      ⟨2, [Event.releaseContent "foo"]⟩ ∧
    Loop.sweep scenario2 0 =
      ⟨(scenario2Position.rest scenario2 2).world,
        scenario2Position.events scenario2 0 ++ Event.releaseContent "foo" ::
          (scenario2Position.rest scenario2 2).trace,
        (scenario2Position.rest scenario2 2).err⟩ ∧
    ∀ next more, scenario2Position.after = next :: more →
      ∃ tail,
        (scenario2Position.rest scenario2 2).trace =
          Event.releaseContent (scenario2.env.GetReleaseName next) :: tail :=
  sweep_skips_absent_release scenario2 0 scenario2Position ⟨rfl, rfl, rfl⟩ rfl

/-- C4: let `A` be a listed object whose probe returns content with a status code that
differs from the stored one and whose patch call fails with `e`, and let `B` be listed
after `A` in the same namespace (`mid` between them, `post` after `B`).  Then the handling
of `A` is its probe, its patch and one log line carrying the namespace, the name of `A`
and `e`; the sweep goes on through `mid` and handles `B`, starting with the probe of `B`,
and when `B` is stale its handling holds exactly one patch for `B`; the fatal error of
the sweep is that of the namespaces after the one of `A`, and when there is none the loop
goes back to its `select`. -/
theorem sweep_isolates_patch_failure {M S W : Type} (a : Updater M S W) (w : W)
    (p : Position M S) (hp : p.listed a w)
    (mid : List (HelmRelease M S)) (B : HelmRelease M S) (post : List (HelmRelease M S))
    (hafter : p.after = mid ++ B :: post)
    (content : GetReleaseContentResponse) (data : String) (e : Error)
    (hprobe : (a.env.ReleaseContent (a.env.GetReleaseName p.fhr) (p.world a w)).1.toOption =
      some content)
    (hstale : content.statusCodeString ≠ p.fhr.Status.ReleaseStatus)
    (hdata : jsonMarshal (patchDocument (a.env.GetReleaseName p.fhr) content.statusCodeString) =
      .ok data)
    (hfail : (a.env.Patch p.ns p.fhr.Name .MergePatchType data
      (a.env.ReleaseContent (a.env.GetReleaseName p.fhr) (p.world a w)).2).1 = some e)
    (wA wB wC wD : W)
    (hwA : wA = (a.env.Patch p.ns p.fhr.Name .MergePatchType data
      (a.env.ReleaseContent (a.env.GetReleaseName p.fhr) (p.world a w)).2).2)
    (hwB : wB = (Loop.items a.env p.ns mid wA).world)
    (hwC : wC = (Loop.item a.env p.ns B wB).world)
    (hwD : wD = (Loop.items a.env p.ns post wC).world) :
    Loop.item a.env p.ns p.fhr (p.world a w) =
      ⟨wA, [Event.releaseContent (a.env.GetReleaseName p.fhr),
        Event.patch p.ns p.fhr.Name .MergePatchType data,
        Event.log [.str "namespace", .str p.ns, .str "resource", .str p.fhr.Name,
          .str "err", .err (some e)]]⟩ ∧
    Loop.sweep a w =
      ⟨(Loop.namespaces a.env p.nsAfter wD).world,
        p.events a w ++
          [Event.releaseContent (a.env.GetReleaseName p.fhr),
            Event.patch p.ns p.fhr.Name .MergePatchType data,
            Event.log [.str "namespace", .str p.ns, .str "resource", .str p.fhr.Name,
              .str "err", .err (some e)]] ++
          (Loop.items a.env p.ns mid wA).trace ++ (Loop.item a.env p.ns B wB).trace ++
          (Loop.items a.env p.ns post wC).trace ++ (Loop.namespaces a.env p.nsAfter wD).trace,
        (Loop.namespaces a.env p.nsAfter wD).err⟩ ∧
    (∃ tail, (Loop.item a.env p.ns B wB).trace =
      Event.releaseContent (a.env.GetReleaseName B) :: tail) ∧
    (∀ contentB : GetReleaseContentResponse,
      (a.env.ReleaseContent (a.env.GetReleaseName B) wB).1.toOption = some contentB →
      contentB.statusCodeString ≠ B.Status.ReleaseStatus →
      ∃ dataB : String,
        jsonMarshal (patchDocument (a.env.GetReleaseName B) contentB.statusCodeString) =
          .ok dataB ∧
        (Loop.item a.env p.ns B wB).trace.filter Event.isPatch =
          [Event.patch p.ns B.Name .MergePatchType dataB]) ∧
    ((Loop.namespaces a.env p.nsAfter wD).err = none →
      ∀ signals : List Signal,
        (Loop.iterate a none (.tick :: signals) w).stopped =
          (Loop.iterate a none signals (Loop.sweep a w).world).stopped) := by
  have hA : Loop.item a.env p.ns p.fhr (p.world a w) =
      ⟨wA, [Event.releaseContent (a.env.GetReleaseName p.fhr),
        Event.patch p.ns p.fhr.Name .MergePatchType data,
        Event.log [.str "namespace", .str p.ns, .str "resource", .str p.fhr.Name,
          .str "err", .err (some e)]]⟩ := by
    rw [Loop.item_stale a.env p.ns p.fhr _ content data hprobe hstale hdata, hfail, hwA]
    rfl
  have hsweep : Loop.sweep a w =
      ⟨(Loop.namespaces a.env p.nsAfter wD).world,
        p.events a w ++
          [Event.releaseContent (a.env.GetReleaseName p.fhr),
            Event.patch p.ns p.fhr.Name .MergePatchType data,
            Event.log [.str "namespace", .str p.ns, .str "resource", .str p.fhr.Name,
              .str "err", .err (some e)]] ++
          (Loop.items a.env p.ns mid wA).trace ++ (Loop.item a.env p.ns B wB).trace ++
          (Loop.items a.env p.ns post wC).trace ++ (Loop.namespaces a.env p.nsAfter wD).trace,
        (Loop.namespaces a.env p.nsAfter wD).err⟩ := by
    rw [p.sweep_eq a w hp, hA]
    simp only [Position.rest, hafter, Loop.items_append, Loop.items, ← hwB, ← hwC, ← hwD,
      List.append_assoc]
  refine ⟨hA, hsweep, Loop.item_trace a.env p.ns B wB, ?_, ?_⟩
  · intro contentB hB hBstale
    have hd := jsonMarshal_patchDocument (a.env.GetReleaseName B) contentB.statusCodeString
    refine ⟨_, hd, ?_⟩
    rw [Loop.item_stale a.env p.ns B wB contentB _ hB hBstale hd]
    cases (a.env.Patch p.ns B.Name .MergePatchType _
      (a.env.ReleaseContent (a.env.GetReleaseName B) wB).2).1 <;> simp [Event.isPatch]
  · intro hnone signals
    rw [Loop.iterate_tick_ok a none signals w (by rw [hsweep]; exact hnone)]

/-- The faulty cluster run through C4: the patch of `app` fails, `web` is patched. -/
theorem sweep_isolates_patch_failure_witness :
    Loop.item faulty.env "default" ⟨"app", (), "foo", ⟨"", ""⟩⟩ 1 =
      ⟨3, [Event.releaseContent "foo",
        Event.patch "default" "app" .MergePatchType
          "\x7b\"status\":\x7b\"releaseName\":\"foo\",\"releaseStatus\":\"DEPLOYED\"\x7d\x7d",
        Event.log [.str "namespace", .str "default", .str "resource", .str "app",
          .str "err", .err (some "conflict")]]⟩ ∧
    Loop.sweep faulty 0 =
      ⟨5,
        [Event.listHelmReleases "default"] ++
          [Event.releaseContent "foo",
            Event.patch "default" "app" .MergePatchType
              "\x7b\"status\":\x7b\"releaseName\":\"foo\",\"releaseStatus\":\"DEPLOYED\"\x7d\x7d",
            Event.log [.str "namespace", .str "default", .str "resource", .str "app",
              .str "err", .err (some "conflict")]] ++
          [] ++
          [Event.releaseContent "bar",
            Event.patch "default" "web" .MergePatchType
              "\x7b\"status\":\x7b\"releaseName\":\"bar\",\"releaseStatus\":\"DEPLOYED\"\x7d\x7d"] ++
          [] ++ [],
        none⟩ ∧
    (∃ tail, (Loop.item faulty.env "default" ⟨"web", (), "bar", ⟨"", ""⟩⟩ 3).trace =
      Event.releaseContent "bar" :: tail) ∧
    (∀ contentB : GetReleaseContentResponse,
      (faulty.env.ReleaseContent "bar" 3).1.toOption = some contentB →
      contentB.statusCodeString ≠ "" →
      ∃ dataB : String,
        jsonMarshal (patchDocument "bar" contentB.statusCodeString) = .ok dataB ∧
        (Loop.item faulty.env "default" ⟨"web", (), "bar", ⟨"", ""⟩⟩ 3).trace.filter
            Event.isPatch =
          [Event.patch "default" "web" .MergePatchType dataB]) ∧
    ((Loop.namespaces faulty.env [] 5).err = none →
      ∀ signals : List Signal,
        (Loop.iterate faulty none (.tick :: signals) 0).stopped =
          (Loop.iterate faulty none signals (Loop.sweep faulty 0).world).stopped) :=
  sweep_isolates_patch_failure faulty 0
    ⟨[], "default", [], [], ⟨"app", (), "foo", ⟨"", ""⟩⟩, [⟨"web", (), "bar", ⟨"", ""⟩⟩]⟩
    ⟨rfl, rfl, rfl⟩ [] ⟨"web", (), "bar", ⟨"", ""⟩⟩ [] rfl ⟨"DEPLOYED"⟩
    "\x7b\"status\":\x7b\"releaseName\":\"foo\",\"releaseStatus\":\"DEPLOYED\"\x7d\x7d"
    "conflict" rfl (by decide) rfl rfl 3 3 5 5 rfl rfl rfl rfl

/-- C5: with no namespace configured, when the namespace listing fails with `e` on the
tick that follows a run of the loop still waiting, the sweep of that tick consists of the
listing call alone (no object is listed, probed or patched), `Loop` returns whatever
signals would follow, and the error logged at the end is `e`. -/
theorem Loop_namespace_listing_fails {M S W : Type} (a : Updater M S W)
    (s1 s2 : List Signal) (w : W) (e : Error) (hns : a.namespace_ = "")
    (h : (Loop a s1 w).stopped = false)
    (hfail : (a.env.listNamespaces (Loop a s1 w).world).1 = .error e) :
    Loop.sweep a (Loop a s1 w).world =
      ⟨(a.env.listNamespaces (Loop a s1 w).world).2, [Event.listNamespaces], some e⟩ ∧
    Loop a (s1 ++ .tick :: s2) w =
      ⟨(a.env.listNamespaces (Loop a s1 w).world).2,
        (Loop a s1 w).trace ++
          [Event.listNamespaces, Event.tickerStop,
            Event.log [.str "loop", .str "stopping", .str "err", .err (some e)]],
        true, some e⟩ := by
  have hs : Loop.sweep a (Loop a s1 w).world =
      ⟨(a.env.listNamespaces (Loop a s1 w).world).2, [Event.listNamespaces], some e⟩ := by
    rcases hl : a.env.listNamespaces (Loop a s1 w).world with ⟨res, w1⟩
    rw [hl] at hfail
    simp only at hfail
    subst hfail
    simp [Loop.sweep, Loop.scope, hns, hl]
  refine ⟨hs, ?_⟩
  rw [Loop.append a s1 _ w h, Loop.iterate_tick_fatal a none s2 _ e (by rw [hs]), hs]
  simp

/-- An unreachable cluster run through C5, on the first tick. -/
theorem Loop_namespace_listing_fails_witness :
    Loop.sweep unreachable 0 = ⟨1, [Event.listNamespaces], some "connection refused"⟩ ∧
    Loop unreachable ([] ++ .tick :: [.tick, .tick]) 0 =
      ⟨1,
        [Event.newTicker period] ++
          [Event.listNamespaces, Event.tickerStop,
            Event.log [.str "loop", .str "stopping", .str "err",
              .err (some "connection refused")]],
        true, some "connection refused"⟩ :=
  Loop_namespace_listing_fails unreachable [] [.tick, .tick] 0 "connection refused" rfl rfl rfl

/-- C6: when, on the tick that follows a run of the loop still waiting, the namespaces
to scan are `nsPre ++ nk :: nsPost`, the listings of `nsPre` succeed and the listing of
`nk` fails with `e`: the sweep is the complete loop over `nsPre` (all its probes and
patches, nothing undone after them) followed by the failed listing call of `nk` and
nothing else; no object of `nk` or of a later namespace is reached; `Loop` returns
whatever signals would follow, and the error logged at the end is `e`. -/
theorem Loop_object_listing_fails {M S W : Type} (a : Updater M S W)
    (s1 s2 : List Signal) (w : W) (nsPre : List String) (nk : String) (nsPost : List String)
    (e : Error) (h : (Loop a s1 w).stopped = false)
    (hscope : (Loop.scope a (Loop a s1 w).world).1 = .ok (nsPre ++ nk :: nsPost))
    (hpre : (Loop.namespaces a.env nsPre (Loop.scope a (Loop a s1 w).world).2.1).err = none)
    (hfail : (a.env.listHelmReleases nk
      (Loop.namespaces a.env nsPre (Loop.scope a (Loop a s1 w).world).2.1).world).1 =
        .error e) :
    Loop.sweep a (Loop a s1 w).world =
      ⟨(a.env.listHelmReleases nk
          (Loop.namespaces a.env nsPre (Loop.scope a (Loop a s1 w).world).2.1).world).2,
        (Loop.scope a (Loop a s1 w).world).2.2 ++
          (Loop.namespaces a.env nsPre (Loop.scope a (Loop a s1 w).world).2.1).trace ++
          [Event.listHelmReleases nk],
        some e⟩ ∧
    (∀ p : Position M S, p.listed a (Loop a s1 w).world →
      p.nsBefore.length < nsPre.length) ∧
    Loop a (s1 ++ .tick :: s2) w =
      ⟨(a.env.listHelmReleases nk
          (Loop.namespaces a.env nsPre (Loop.scope a (Loop a s1 w).world).2.1).world).2,
        (Loop a s1 w).trace ++
          ((Loop.scope a (Loop a s1 w).world).2.2 ++
            (Loop.namespaces a.env nsPre (Loop.scope a (Loop a s1 w).world).2.1).trace ++
            [Event.listHelmReleases nk]) ++
          [Event.tickerStop,
            Event.log [.str "loop", .str "stopping", .str "err", .err (some e)]],
        true, some e⟩ := by
  have hs : Loop.sweep a (Loop a s1 w).world =
      ⟨(a.env.listHelmReleases nk
          (Loop.namespaces a.env nsPre (Loop.scope a (Loop a s1 w).world).2.1).world).2,
        (Loop.scope a (Loop a s1 w).world).2.2 ++
          (Loop.namespaces a.env nsPre (Loop.scope a (Loop a s1 w).world).2.1).trace ++
          [Event.listHelmReleases nk],
        some e⟩ := by
    rw [Loop.sweep_of_scope_ok a _ _ hscope,
      Loop.namespaces_fails_at a.env nsPre nk nsPost _ e hpre hfail]
    simp [List.append_assoc]
  refine ⟨hs, ?_, ?_⟩
  · intro p hp
    obtain ⟨hp1, hp2, hp3⟩ := hp
    rw [hscope] at hp1
    have heq : nsPre ++ nk :: nsPost = p.nsBefore ++ p.ns :: p.nsAfter := by
      injection hp1
    by_contra hlt
    push_neg at hlt
    rcases List.append_eq_append_iff.mp heq with ⟨c, hc1, hc2⟩ | ⟨c, hc1, hc2⟩
    · -- `p.nsBefore = nsPre ++ c`
      cases c with
      | nil =>
        simp only [List.append_nil] at hc1
        simp only [List.nil_append, List.cons.injEq] at hc2
        obtain ⟨hk, -⟩ := hc2
        unfold Position.listingWorld at hp3
        rw [hc1, ← hk, hfail] at hp3
        cases hp3
      | cons c0 cs =>
        simp only [List.cons_append, List.cons.injEq] at hc2
        obtain ⟨hk, -⟩ := hc2
        rw [hc1] at hp2
        have h2 := Loop.namespaces_err_append a.env (nsPre ++ [c0]) cs _ (by
          simpa [List.append_assoc] using hp2)
        rw [← hk, Loop.namespaces_fails_at a.env nsPre nk [] _ e hpre hfail] at h2
        cases h2
    · -- `nsPre = p.nsBefore ++ c`
      cases c with
      | nil =>
        simp only [List.append_nil] at hc1
        simp only [List.nil_append, List.cons.injEq] at hc2
        obtain ⟨hk, -⟩ := hc2
        unfold Position.listingWorld at hp3
        rw [← hc1, hk, hfail] at hp3
        cases hp3
      | cons c0 cs =>
        rw [hc1] at hlt
        simp at hlt
  · rw [Loop.append a s1 _ w h, Loop.iterate_tick_fatal a none s2 _ e (by rw [hs]), hs]
    simp

/-- Scenario 4 run through C6, on the first tick: `ns1` is processed, `ns2` fails. -/
theorem Loop_object_listing_fails_witness :
    Loop.sweep scenario4 0 =
      ⟨5,
        [Event.listNamespaces] ++
          [Event.listHelmReleases "ns1", Event.releaseContent "foo",
            Event.patch "ns1" "app" .MergePatchType
              "\x7b\"status\":\x7b\"releaseName\":\"foo\",\"releaseStatus\":\"DEPLOYED\"\x7d\x7d"] ++
          [Event.listHelmReleases "ns2"],
        some "list refused"⟩ ∧
    (∀ p : Position Unit String, p.listed scenario4 0 → p.nsBefore.length < ["ns1"].length) ∧
    Loop scenario4 ([] ++ .tick :: [.tick]) 0 =
      ⟨5,
        [Event.newTicker period] ++
          ([Event.listNamespaces] ++
            [Event.listHelmReleases "ns1", Event.releaseContent "foo",
              Event.patch "ns1" "app" .MergePatchType
                "\x7b\"status\":\x7b\"releaseName\":\"foo\",\"releaseStatus\":\"DEPLOYED\"\x7d\x7d"] ++
            [Event.listHelmReleases "ns2"]) ++
          [Event.tickerStop,
            Event.log [.str "loop", .str "stopping", .str "err", .err (some "list refused")]],
        true, some "list refused"⟩ :=
  Loop_object_listing_fails scenario4 [] [.tick] 0 ["ns1"] "ns2" [] "list refused" rfl rfl rfl rfl

/-- C7: when the release-backend call for a listed object fails with an error `e`, the
object is handled as one without data: the handling is the probe alone, with no patch
call and no log line; the error `e` is dropped (the handling is the same whatever the
error is), the fatal error of the sweep is that of the rest of the sweep, and the sweep
goes on with the probe of the next object. -/
theorem sweep_swallows_probe_error {M S W : Type} (a : Updater M S W) (w : W)
    (p : Position M S) (hp : p.listed a w) (e : Error)
    (hfail : (a.env.ReleaseContent (a.env.GetReleaseName p.fhr) (p.world a w)).1 = .error e) :
    Loop.item a.env p.ns p.fhr (p.world a w) =
      ⟨(a.env.ReleaseContent (a.env.GetReleaseName p.fhr) (p.world a w)).2,
        [Event.releaseContent (a.env.GetReleaseName p.fhr)]⟩ ∧
    (∀ (env : Env M S W) (e1 : Error), env.GetReleaseName = a.env.GetReleaseName →
      env.ReleaseContent (a.env.GetReleaseName p.fhr) (p.world a w) =
        (.error e1, (a.env.ReleaseContent (a.env.GetReleaseName p.fhr) (p.world a w)).2) →
      Loop.item env p.ns p.fhr (p.world a w) = Loop.item a.env p.ns p.fhr (p.world a w)) ∧
    Loop.sweep a w =
      ⟨(p.rest a (a.env.ReleaseContent (a.env.GetReleaseName p.fhr) (p.world a w)).2).world,
        p.events a w ++ Event.releaseContent (a.env.GetReleaseName p.fhr) ::
          (p.rest a (a.env.ReleaseContent (a.env.GetReleaseName p.fhr) (p.world a w)).2).trace,
        (p.rest a (a.env.ReleaseContent (a.env.GetReleaseName p.fhr) (p.world a w)).2).err⟩ ∧
    ∀ next more, p.after = next :: more →
      ∃ tail,
        (p.rest a (a.env.ReleaseContent (a.env.GetReleaseName p.fhr) (p.world a w)).2).trace =
          Event.releaseContent (a.env.GetReleaseName next) :: tail := by
  have habsent : (a.env.ReleaseContent (a.env.GetReleaseName p.fhr)
      (p.world a w)).1.toOption = none := by
    rw [hfail]; rfl
  refine ⟨Loop.item_absent _ _ _ _ habsent, ?_, ?_,
    fun next more h => p.rest_next a _ next more h⟩
  · intro env e1 hname hrc
    have h1 : (env.ReleaseContent (env.GetReleaseName p.fhr) (p.world a w)).1.toOption =
        none := by
      rw [hname, hrc]; rfl
    rw [Loop.item_absent _ _ _ _ habsent, Loop.item_absent _ _ _ _ h1, hname, hrc]
  · rw [p.sweep_eq a w hp, Loop.item_absent _ _ _ _ habsent]
    simp

/-- A backend outage run through C7: the call for `foo` fails, `bar` is probed next. -/
theorem sweep_swallows_probe_error_witness :
    Loop.item outage.env "default" scenario2Position.fhr 1 =
      ⟨2, [Event.releaseContent "foo"]⟩ ∧
    (∀ (env : Env Unit String Nat) (e1 : Error), env.GetReleaseName = outage.env.GetReleaseName →
      env.ReleaseContent "foo" 1 = (.error e1, 2) →
      Loop.item env "default" scenario2Position.fhr 1 =
        Loop.item outage.env "default" scenario2Position.fhr 1) ∧
    Loop.sweep outage 0 =
      ⟨3, [Event.listHelmReleases "default", Event.releaseContent "foo",
        Event.releaseContent "bar"], none⟩ ∧
    ∀ next more, scenario2Position.after = next :: more →
      ∃ tail,
        (scenario2Position.rest outage 2).trace =
          Event.releaseContent (outage.env.GetReleaseName next) :: tail :=
  sweep_swallows_probe_error outage 0 scenario2Position ⟨rfl, rfl, rfl⟩ "transport is closing"
    rfl

/-- C8: `UpdateReleaseStatus` makes one call, a merge patch addressed to the object's
name, whose data is the JSON text of the object with the single key `status` holding
exactly `releaseName` and `releaseStatus` with the given values; the data depends on the
two strings only, and two objects of the same name give the same call and result. -/
theorem UpdateReleaseStatus_patch {M S W : Type} (env : Env M S W) (ns : String)
    (fhr : HelmRelease M S) (releaseName releaseStatus : String) (w : W) :
    ∃ data : String,
      jsonMarshal (.obj [("status",
        .obj [("releaseName", .str releaseName), ("releaseStatus", .str releaseStatus)])]) =
        .ok data ∧
      data = String.mk ("\x7b\"status\":\x7b\"releaseName\":".data ++ encodeString releaseName ++
        ",\"releaseStatus\":".data ++ encodeString releaseStatus ++ "\x7d\x7d".data) ∧
      UpdateReleaseStatus env ns fhr releaseName releaseStatus w =
        ((env.Patch ns fhr.Name .MergePatchType data w).1,
          (env.Patch ns fhr.Name .MergePatchType data w).2,
          [Event.patch ns fhr.Name .MergePatchType data]) ∧
      ∀ (other : HelmRelease M S), other.Name = fhr.Name →
        UpdateReleaseStatus env ns other releaseName releaseStatus w =
          UpdateReleaseStatus env ns fhr releaseName releaseStatus w := by
  have hd := jsonMarshal_patchDocument releaseName releaseStatus
  refine ⟨_, hd, rfl, UpdateReleaseStatus_eq env ns fhr _ _ w _ hd, ?_⟩
  intro other hname
  rw [UpdateReleaseStatus_eq env ns fhr _ _ w _ hd, UpdateReleaseStatus_eq env ns other _ _ w _ hd,
    hname]

/-- C9: with a configured namespace `s` that is not empty, the namespaces scanned by a
sweep are exactly `[s]`: no call is made to compute them and the sweep is the loop over
`[s]` from the same world, whatever happened on earlier ticks; with an empty configured
namespace and a successful namespace listing, the namespaces scanned are exactly the
names of the listed namespaces, in listing order. -/
theorem scope_namespaces {M S W : Type} (a : Updater M S W) (w : W) :
    (a.namespace_ ≠ "" →
      Loop.scope a w = (.ok [a.namespace_], w, []) ∧
      Loop.sweep a w =
        ⟨(Loop.namespaces a.env [a.namespace_] w).world,
          (Loop.namespaces a.env [a.namespace_] w).trace,
          (Loop.namespaces a.env [a.namespace_] w).err⟩) ∧
    (a.namespace_ = "" → ∀ all : List Namespace, (a.env.listNamespaces w).1 = .ok all →
      Loop.scope a w =
        (.ok (all.map Namespace.Name), (a.env.listNamespaces w).2, [Event.listNamespaces]) ∧
      Loop.sweep a w =
        ⟨(Loop.namespaces a.env (all.map Namespace.Name) (a.env.listNamespaces w).2).world,
          Event.listNamespaces ::
            (Loop.namespaces a.env (all.map Namespace.Name) (a.env.listNamespaces w).2).trace,
          (Loop.namespaces a.env (all.map Namespace.Name) (a.env.listNamespaces w).2).err⟩) := by
  constructor
  · intro h
    have hs : Loop.scope a w = (.ok [a.namespace_], w, []) := by
      simp [Loop.scope, h]
    refine ⟨hs, ?_⟩
    rw [Loop.sweep_of_scope_ok a w [a.namespace_] (by rw [hs]), hs]
    simp
  · intro h all hall
    have hs : Loop.scope a w =
        (.ok (all.map Namespace.Name), (a.env.listNamespaces w).2, [Event.listNamespaces]) := by
      rcases hl : a.env.listNamespaces w with ⟨res, w1⟩
      rw [hl] at hall
      simp only at hall
      subst hall
      simp [Loop.scope, h, hl, Loop.scope_foldl]
    refine ⟨hs, ?_⟩
    rw [Loop.sweep_of_scope_ok a w _ (by rw [hs]), hs]
    simp

/-- Both configurations run through C9: scenario 2 is configured with `default`,
scenario 1 with the empty namespace and a cluster whose only namespace is `default`. -/
theorem scope_namespaces_witness :
    (Loop.scope scenario2 0 = (.ok ["default"], 0, []) ∧
      Loop.sweep scenario2 0 =
        ⟨(Loop.namespaces scenario2.env ["default"] 0).world,
          (Loop.namespaces scenario2.env ["default"] 0).trace,
          (Loop.namespaces scenario2.env ["default"] 0).err⟩) ∧
    (Loop.scope scenario1 0 = (.ok ["default"], 1, [Event.listNamespaces]) ∧
      Loop.sweep scenario1 0 =
        ⟨(Loop.namespaces scenario1.env ["default"] 1).world,
          Event.listNamespaces :: (Loop.namespaces scenario1.env ["default"] 1).trace,
          (Loop.namespaces scenario1.env ["default"] 1).err⟩) :=
  ⟨(scope_namespaces scenario2 0).1 (by decide),
    (scope_namespaces scenario1 0).2 rfl [⟨"default"⟩] rfl⟩

/-- C10: when the `select` that follows a run of the loop still waiting receives the
stop signal, `Loop` returns: no call is made after the run (the world is unchanged and
the trace ends with the ticker stop and the final log line), whatever signals would
follow, and the error logged is nil.  When instead a tick is received and the stop
signal is delivered at the next `select`, the whole sweep of that tick is in the trace,
up to its end or to its fatal error, before the loop stops. -/
theorem Loop_stop {M S W : Type} (a : Updater M S W) (s1 s2 : List Signal) (w : W)
    (h : (Loop a s1 w).stopped = false) :
    Loop a (s1 ++ .stop :: s2) w =
      ⟨(Loop a s1 w).world,
        (Loop a s1 w).trace ++
          [Event.tickerStop, Event.log [.str "loop", .str "stopping", .str "err", .err none]],
        true, none⟩ ∧
    Loop a (s1 ++ .tick :: .stop :: s2) w =
      ⟨(Loop.sweep a (Loop a s1 w).world).world,
        (Loop a s1 w).trace ++ (Loop.sweep a (Loop a s1 w).world).trace ++
          [Event.tickerStop, Event.log [.str "loop", .str "stopping", .str "err",
            .err (Loop.sweep a (Loop a s1 w).world).err]],
        true, (Loop.sweep a (Loop a s1 w).world).err⟩ := by
  constructor
  · rw [Loop.append a s1 _ w h]
    simp [Loop.iterate, Loop.finish]
  · rw [Loop.append a s1 _ w h]
    cases he : (Loop.sweep a (Loop a s1 w).world).err with
    | some e => simp [Loop.iterate, Loop.finish, he]
    | none => simp [Loop.iterate, Loop.finish, he]

/-- Scenario 1 run through C10, after one tick. -/
theorem Loop_stop_witness :
    Loop scenario1 ([.tick] ++ .stop :: [.tick]) 0 =
      ⟨(Loop scenario1 [.tick] 0).world,
        (Loop scenario1 [.tick] 0).trace ++
          [Event.tickerStop, Event.log [.str "loop", .str "stopping", .str "err", .err none]],
        true, none⟩ ∧
    Loop scenario1 ([.tick] ++ .tick :: .stop :: [.tick]) 0 =
      ⟨(Loop.sweep scenario1 (Loop scenario1 [.tick] 0).world).world,
        (Loop scenario1 [.tick] 0).trace ++
          (Loop.sweep scenario1 (Loop scenario1 [.tick] 0).world).trace ++
          [Event.tickerStop, Event.log [.str "loop", .str "stopping", .str "err",
            .err (Loop.sweep scenario1 (Loop scenario1 [.tick] 0).world).err]],
        true, (Loop.sweep scenario1 (Loop scenario1 [.tick] 0).world).err⟩ :=
  Loop_stop scenario1 [.tick] [.tick] 0 rfl

end Flux.Status
